import Mathlib

/-!
Verification of the roll-call report generator (通用接龙数据报表生成器.py).

The Python source is shallowly embedded below.  Strings are Lean `String`s
(Python `str` compares and slices by code points, as `List Char` does here),
Python ints are `Nat`/`Int`, and floats produced by `difflib`'s `ratio` are
modeled as exact rationals (`ℚ`): every claim compares ratios whose exact
values are far apart or equal, so double rounding never changes the outcome.

External libraries used by the source are embedded from their documented
algorithms: `difflib.SequenceMatcher` (stdlib) is embedded in full below;
`pypinyin.lazy_pinyin` is kept as an explicit function parameter `to_pinyin`
of every definition that needs it (the engine's control flow never depends
on its output beyond what the claims quantify over).
-/

namespace ReportGen

/-! ### Basic string machinery (Python `in`, `strip`, `replace`, `\d`, `\s`) -/

/-- Python `\d` on the inputs in scope (ASCII decimal digits). -/
def pyDigit (c : Char) : Bool := c.isDigit

/-- Python `\s` / `str.strip` whitespace (ASCII whitespace characters). -/
def pySpace (c : Char) : Bool := c ∈ [' ', '\t', '\n', '\r', '\x0b', '\x0c']

/-- `listStartsWith pat l` : `pat` is a prefix of `l`. -/
def listStartsWith : List Char → List Char → Bool
  | [], _ => true
  | _ :: _, [] => false
  | a :: as, b :: bs => a == b && listStartsWith as bs

/-- `listContainsSub pat l` : `pat` occurs as a contiguous substring of `l`
(Python's `pat in l`; the empty pattern always matches). -/
def listContainsSub (pat : List Char) : List Char → Bool
  | [] => listStartsWith pat []
  | s@(_ :: rest) => listStartsWith pat s || listContainsSub pat rest

/-- Python `needle in haystack` on strings. -/
def pyIn (needle haystack : String) : Bool := listContainsSub needle.data haystack.data

/-- Python `str.strip()`. -/
def pyStrip (s : String) : String :=
  ⟨(((s.data.dropWhile pySpace).reverse).dropWhile pySpace).reverse⟩

/-- Remove every (non-overlapping, leftmost-first) occurrence of `pat`:
Python `s.replace(pat, '')` and `re.sub(re.escape(pat), '', s)`.
An empty pattern leaves the string unchanged (as `re.sub` does). -/
def removeAllAux (pat : List Char) : Nat → List Char → List Char
  | 0, s => s
  | _ + 1, [] => []
  | fuel + 1, s@(c :: rest) =>
    if listStartsWith pat s then removeAllAux pat fuel (s.drop pat.length)
    else c :: removeAllAux pat fuel rest

def removeAll (pat s : String) : String :=
  if pat.data.isEmpty then s else ⟨removeAllAux pat.data (s.data.length + 1) s.data⟩

/-- Value of a decimal digit string (`int(num_str)`). -/
def digitsToNat (g : List Char) : Nat := g.foldl (fun n c => 10 * n + (c.toNat - '0'.toNat)) 0

/-! ### difflib.SequenceMatcher(None, a, b).ratio()

Embedded from the stdlib algorithm.  `isjunk` is `None` throughout the
source, so the junk set `bjunk` is empty and the two junk-extension loops of
`find_longest_match` never fire; `autojunk` stays at its default `True`, so
characters occurring more than `len(b)//100 + 1` times are dropped from the
match-chain index when `len(b) >= 200` (`popularPred`), and the remaining
two extension loops re-extend a best match across such characters. -/

/-- Length of the common run starting at the heads, skipping nothing, but a
popular `b`-character breaks the chain (it was deleted from `b2j`). -/
def runLen (pop : Char → Bool) : List Char → List Char → Nat
  | a :: as, b :: bs => if a == b && !pop b then runLen pop as bs + 1 else 0
  | _, _ => 0

/-- The chain-built best match of `find_longest_match`: the longest run over
all start pairs, ties resolved to the smallest `i`, then smallest `j`
(the scan order of difflib's loop with its strict `>` update). -/
def bestRun (pop : Char → Bool) (as bs : List Char) : Nat × Nat × Nat :=
  ((List.range as.length).flatMap fun i => (List.range bs.length).map fun j => (i, j)).foldl
    (fun best ij =>
      let k := runLen pop (as.drop ij.1) (bs.drop ij.2)
      if best.2.2 < k then (ij.1, ij.2, k) else best)
    (0, 0, 0)

/-- Do positions `i` of `as` and `j` of `bs` hold the same character? -/
def charAtEq (as bs : List Char) (i j : Nat) : Bool :=
  match as[i]?, bs[j]? with
  | some a, some b => a == b
  | _, _ => false

/-- The backward non-junk extension loop of `find_longest_match`. -/
def extendBack (as bs : List Char) : Nat → Nat × Nat × Nat → Nat × Nat × Nat
  | 0, best => best
  | fuel + 1, best =>
    match best with
    | (bi + 1, bj + 1, bk) =>
      if charAtEq as bs bi bj then extendBack as bs fuel (bi, bj, bk + 1)
      else (bi + 1, bj + 1, bk)
    | _ => best

/-- The forward non-junk extension loop of `find_longest_match`. -/
def extendFwd (as bs : List Char) : Nat → Nat × Nat × Nat → Nat × Nat × Nat
  | 0, best => best
  | fuel + 1, (bi, bj, bk) =>
    if charAtEq as bs (bi + bk) (bj + bk) then extendFwd as bs fuel (bi, bj, bk + 1)
    else (bi, bj, bk)

def findLongestMatch (pop : Char → Bool) (as bs : List Char) : Nat × Nat × Nat :=
  extendFwd as bs as.length (extendBack as bs as.length (bestRun pop as bs))

/-- Total size of the matching blocks of `get_matching_blocks` (the queue
recursion: best block, then the region to its left and to its right).  The
fuel is an upper bound on the recursion depth: each recursive call strictly
shrinks the first list. -/
def matchSizeAux (pop : Char → Bool) : Nat → List Char → List Char → Nat
  | 0, _, _ => 0
  | fuel + 1, as, bs =>
    match findLongestMatch pop as bs with
    | (bi, bj, bk) =>
      if bk = 0 then 0
      else bk + matchSizeAux pop fuel (as.take bi) (bs.take bj)
              + matchSizeAux pop fuel (as.drop (bi + bk)) (bs.drop (bj + bk))

/-- autojunk: with `len(b) >= 200`, characters occurring more than
`len(b)//100 + 1` times in `b` are removed from the chain index. -/
def popularPred (bs : List Char) : Char → Bool :=
  fun c => if 200 ≤ bs.length then decide (bs.length / 100 + 1 < bs.count c) else false

/-- Total matched size `M` of `SequenceMatcher(None, a, b)`. -/
def matchTotal (la lb : List Char) : Nat :=
  matchSizeAux (popularPred lb) (la.length + 1) la lb

/-- `SequenceMatcher(None, a, b).ratio()` as an exact rational:
`2*M / (len(a)+len(b))`, and `1.0` when both are empty. -/
def pyRatio (la lb : List Char) : ℚ :=
  if la.length + lb.length = 0 then 1
  else (2 * matchTotal la lb : ℚ) / (la.length + lb.length : ℚ)

/-! ### DataProcessor -/

/-- `DataProcessor.pinyin_similarity`, parametric in the transliteration
(`DataProcessor.to_pinyin`, i.e. `''.join(lazy_pinyin(text))`). -/
def pinyin_similarity (to_pinyin : String → String) (name1 name2 : String) : ℚ :=
  if name1 = "" || name2 = "" then 0
  else pyRatio (to_pinyin name1).data (to_pinyin name2).data

/-- Modelled from the spec: the transliteration is a "stable, deterministic,
locale-independent mapping from each character to a phonetic token,
concatenated without separators"; `lazy_pinyin` passes non-Chinese characters
through unchanged, so on Latin-only strings the phonetic key is the string
itself.  Used only to instantiate theorems at Latin-only inputs. -/
def to_pinyin_ascii (s : String) : String := s

/-- `CHINESE_NUM_DICT.get(c, 1)` for a one-character key. -/
def chineseNumVal (c : Char) : Nat :=
  match c with
  | '一' => 1 | '二' => 2 | '三' => 3 | '四' => 4 | '五' => 5
  | '六' => 6 | '七' => 7 | '八' => 8 | '九' => 9 | '十' => 10 | '两' => 2
  | '壹' => 1 | '贰' => 2 | '叁' => 3 | '肆' => 4 | '伍' => 5
  | '陆' => 6 | '柒' => 7 | '捌' => 8 | '玖' => 9 | '拾' => 10
  | _ => 1

/-- Membership in the character class `[一|二|三|四|五|六|七|八|九|十|两|壹|贰|叁|肆|伍|陆|柒|捌|玖|拾]`
of `extract_number`'s patterns — note the literal `|` is a member of the
class as written in the source. -/
def numHuClassChar (c : Char) : Bool :=
  c ∈ ['一', '二', '三', '四', '五', '六', '七', '八', '九', '十', '两',
       '壹', '贰', '叁', '肆', '伍', '陆', '柒', '捌', '玖', '拾', '|']

/-- Match `(\d+)\s*户` at the head of `rest`: the greedy digit run followed
(after whitespace) by `户`.  Returns the captured group and the tail after
`户`.  Backtracking to a shorter digit run can never succeed (the next
character would be a digit, not `户`), so the greedy run is exact. -/
def digitsHu (rest : List Char) : Option (List Char × List Char) :=
  let drun := rest.takeWhile pyDigit
  if drun.isEmpty then none
  else
    match (rest.drop drun.length).dropWhile pySpace with
    | '户' :: after => some (drun, after)
    | _ => none

/-- Match `[class]\s*户` at the head of `rest`. -/
def classHu (rest : List Char) : Option (List Char × List Char) :=
  match rest with
  | c :: r2 =>
    if numHuClassChar c then
      match r2.dropWhile pySpace with
      | '户' :: after => some ([c], after)
      | _ => none
    else none
  | [] => none

/-- Match `(\d+|[class])\s*户` at position `p` of `s` (the `\d+` alternative
is tried first, as in the regex). -/
def matchNumHuAt (s : List Char) (p : Nat) : Option (List Char × List Char) :=
  match digitsHu (s.drop p) with
  | some r => some r
  | none => classHu (s.drop p)

/-- `re.search` of the first `extract_number` pattern: leftmost match. -/
def searchNumHu (s : List Char) : Option (List Char × List Char) :=
  (List.range (s.length + 1)).findSome? (fun p => matchNumHuAt s p)

/-- `re.search` of the second pattern `(…)\s*户.*接入号`: the same head, and
`接入号` must occur after the `户` (with no newline before it, as `.` does
not cross newlines). -/
def searchNumHuJrh (s : List Char) : Option (List Char × List Char) :=
  (List.range (s.length + 1)).findSome? (fun p =>
    match matchNumHuAt s p with
    | some (g, after) =>
      if listContainsSub "接入号".data (after.takeWhile (fun c => c ≠ '\n')) then some (g, after)
      else none
    | none => none)

/-- `int(num_str) if num_str.isdigit() else CHINESE_NUM_DICT.get(num_str, 1)`. -/
def groupValue (g : List Char) : Nat :=
  if !g.isEmpty && g.all pyDigit then digitsToNat g
  else
    match g with
    | [c] => chineseNumVal c
    | _ => 1

/-- `DataProcessor.extract_number`.  `text.replace(' ', '')` removes the
ASCII space character only. -/
def extract_number (text : String) : Nat :=
  if text = "" then 1
  else
    match searchNumHu (text.data.filter (fun c => c ≠ ' ')) with
    | some (g, _) => groupValue g
    | none =>
      match searchNumHuJrh (text.data.filter (fun c => c ≠ ' ')) with
      | some (g, _) => groupValue g
      | none => 1

/-! ### DataProcessor points extraction (`_POINTS_PATTERNS`) -/

/-- If `pat` is a prefix of `l`, the remainder after it. -/
def stripPrefixCh (pat l : List Char) : Option (List Char) :=
  if listStartsWith pat l then some (l.drop pat.length) else none

/-- `\s*(\d+)` at the head: skip whitespace, then a nonempty greedy digit run. -/
def digitsAfterSpaces (l : List Char) : Option (List Char) :=
  let l2 := l.dropWhile pySpace
  let d := l2.takeWhile pyDigit
  if d.isEmpty then none else some d

/-- Pattern 0, `(?:得|加|\+|增加)?\s*(\d+)\s*(?:分|积分)?`, matched at one
position: the optional prefix group is greedy, alternatives in source order,
then the empty prefix; the optional suffix never constrains the match. -/
def pat0At (rest : List Char) : Option (List Char) :=
  match ["得", "加", "+", "增加"].findSome?
      (fun t => (stripPrefixCh t.data rest).bind digitsAfterSpaces) with
  | some d => some d
  | none => digitsAfterSpaces rest

/-- Pattern 1, `(\d+)顺档(\d+)\+(\d+)`, at one position. -/
def pat1At (rest : List Char) : Option (Nat × Nat × Nat) :=
  let d1 := rest.takeWhile pyDigit
  if d1.isEmpty then none
  else
    match stripPrefixCh "顺档".data (rest.drop d1.length) with
    | none => none
    | some r1 =>
      let d2 := r1.takeWhile pyDigit
      if d2.isEmpty then none
      else
        match stripPrefixCh "+".data (r1.drop d2.length) with
        | none => none
        | some r2 =>
          let d3 := r2.takeWhile pyDigit
          if d3.isEmpty then none else some (digitsToNat d1, digitsToNat d2, digitsToNat d3)

/-- Pattern 2, `顺档\d*\+(\d+)`, at one position. -/
def pat2At (rest : List Char) : Option Nat :=
  match stripPrefixCh "顺档".data rest with
  | none => none
  | some r1 =>
    let d0 := r1.takeWhile pyDigit
    match stripPrefixCh "+".data (r1.drop d0.length) with
    | none => none
    | some r2 =>
      let d := r2.takeWhile pyDigit
      if d.isEmpty then none else some (digitsToNat d)

/-- Pattern 3, `(\d+)顺档\+(\d+)`, at one position. -/
def pat3At (rest : List Char) : Option Nat :=
  let d1 := rest.takeWhile pyDigit
  if d1.isEmpty then none
  else
    match stripPrefixCh "顺档".data (rest.drop d1.length) with
    | none => none
    | some r1 =>
      match stripPrefixCh "+".data r1 with
      | none => none
      | some r2 =>
        let d := r2.takeWhile pyDigit
        if d.isEmpty then none else some (digitsToNat d)

/-- `re.search`: try every start position left to right. -/
def searchAt {α : Type} (f : List Char → Option α) (s : List Char) : Option α :=
  (List.range (s.length + 1)).findSome? (fun p => f (s.drop p))

/-- `DataProcessor.extract_points_optimized`.  The optional custom
`points_regex` is abstracted as a matcher returning the parsed first group
(`None` both when it does not match and when `int(...)` fails, after which
the source falls through to the default patterns either way). -/
def extract_points_default (text : String) : Option Int :=
  match searchAt pat0At text.data with
  | some d => some (Int.ofNat (digitsToNat d))
  | none =>
    match searchAt pat1At text.data with
    | some (x, y, z) => some ((y : Int) - (x : Int) + (z : Int))
    | none =>
      match searchAt pat2At text.data with
      | some z => some (Int.ofNat z)
      | none =>
        match searchAt pat3At text.data with
        | some z => some (Int.ofNat z)
        | none => none

def extract_points_optimized (custom : Option (String → Option Int)) (text : String) :
    Option Int :=
  match custom with
  | some f =>
    match f text with
    | some v => some v
    | none => extract_points_default text
  | none => extract_points_default text

/-! ### DataProcessor.find_manager -/

/-- The roster `branch_manager_map`: branch name → list of manager names,
in configuration (insertion) order, as the Python dict iterates it. -/
abbrev Roster := List (String × List String)

/-- `branch_managers.get(branch, [])`. -/
def rosterGet (roster : Roster) (branch : String) : List String :=
  ((roster.find? (fun bm => bm.1 == branch)).map (fun bm => bm.2)).getD []

/-- A character of the class `[一-龥]`. -/
def chineseChar (c : Char) : Bool :=
  decide (0x4e00 ≤ c.toNat) && decide (c.toNat ≤ 0x9fa5)

/-- `re.findall(r'[一-龥]{2,4}', text)`: a non-overlapping scan; at
each position the greedy quantifier takes up to 4 consecutive CJK
characters and fails below 2, after which the scan moves one position. -/
def chineseWordsAux : Nat → List Char → List (List Char)
  | 0, _ => []
  | _ + 1, [] => []
  | fuel + 1, s@(c :: rest) =>
    if chineseChar c then
      if 2 ≤ (s.takeWhile chineseChar).length then
        ((s.takeWhile chineseChar).take 4) ::
          chineseWordsAux fuel (s.drop ((s.takeWhile chineseChar).take 4).length)
      else chineseWordsAux fuel rest
    else chineseWordsAux fuel rest

def chineseWords (s : List Char) : List (List Char) := chineseWordsAux (s.length + 1) s

/-- `DataProcessor.find_manager`: the four-stage cascade (exact containment;
token equality; pinyin similarity above 0.6; first-two-characters fallback).
The float threshold `> 0.6` is modeled as the exact `> 3/5`: the ratios are
small-denominator rationals, whose rounding to double never crosses the
threshold. -/
def find_manager (to_pinyin : String → String) (roster : Roster) (branch : String)
    (text : String) : Option String :=
  match (rosterGet roster branch).find? (fun m => pyIn m text) with
  | some m => some m
  | none =>
    match (rosterGet roster branch).find? (fun m =>
        (chineseWords text.data).any (fun w => w == m.data)) with
    | some m => some m
    | none =>
      match (rosterGet roster branch).find? (fun m =>
          (chineseWords text.data).any (fun w =>
            decide ((3 : ℚ) / 5 < pinyin_similarity to_pinyin m (String.mk w)))) with
      | some m => some m
      | none =>
        (rosterGet roster branch).find? (fun m =>
          (chineseWords text.data).any (fun w =>
            match m.data with
            | c0 :: c1 :: _ => 2 ≤ w.length && w.contains c0 && w.contains c1
            | _ => false))

/-! ### ReportProcessor: classification -/

inductive Category where
  | lock_storage
  | current_month_recovery
  | last_month_recovery
  | high_risk_recovery
  | dismantle_retention
  | downgrade_retention
deriving DecidableEq

/-- `_category_mapping`'s iteration order (Python dicts preserve insertion
order). -/
def categoryOrder : List Category :=
  [.lock_storage, .current_month_recovery, .last_month_recovery,
   .high_risk_recovery, .dismantle_retention, .downgrade_retention]

/-- The three categories whose quantity is taken from `extract_number`. -/
def recoveryCategories : List Category :=
  [.current_month_recovery, .last_month_recovery, .high_risk_recovery]

structure CategoryConfig where
  keywords : List String
  exclude_keywords : List String
deriving DecidableEq

/-- `business_config["business_categories"].get(category)`: `none` both when
the configuration file is missing and when the category is absent. -/
abbrev BusinessConfig := Category → Option CategoryConfig

/-- `ReportProcessor._should_exclude`. -/
def should_exclude (text : String) (exclude_keywords : List String) : Bool :=
  exclude_keywords.any (fun k => pyIn k text)

/-- `ReportProcessor._match_keywords`. -/
def match_keywords (text : String) (keywords : List String) : Bool :=
  keywords.any (fun k => pyIn k text)

/-- One iteration of the category loop of `process_all_data`: a configured
category is skipped when any exclusion keyword occurs in the line (the
`exclude_keywords and _should_exclude` test), selected when any inclusion
keyword occurs; an unconfigured category falls to `_get_default_keywords`,
which returns `[]` and hence never matches. -/
def categoryMatches (cfg : BusinessConfig) (line : String) (c : Category) : Bool :=
  match cfg c with
  | some cc =>
    if !cc.exclude_keywords.isEmpty && should_exclude line cc.exclude_keywords then false
    else !cc.keywords.isEmpty && match_keywords line cc.keywords
  | none => false

/-- The first category selected by the loop (`break` on first match). -/
def classify (cfg : BusinessConfig) (line : String) : Option Category :=
  categoryOrder.find? (categoryMatches cfg line)

/-! ### ReportProcessor: title-line detection -/

/-- The numeral class of `_TITLE_PATTERNS[-1]` (no `|` in this one). -/
def titleNumeralChar (c : Char) : Bool :=
  pyDigit c || c ∈ ['一', '二', '三', '四', '五', '六', '七', '八', '九', '十',
                    '壹', '贰', '叁', '肆', '伍', '陆', '柒', '捌', '玖', '拾']

/-- `^a.*b`-style pattern `.*A.*B` as a boolean: some occurrence of `a` is
followed (after its end) by an occurrence of `b`; it suffices to look after
the first occurrence of `a`. -/
def seqContains (a b : List Char) : List Char → Bool
  | [] => listStartsWith a [] && listContainsSub b []
  | s@(_ :: rest) =>
    if listStartsWith a s then listContainsSub b (List.drop a.length s)
    else seqContains a b rest

/-- `^[.*?]`-style pattern: opening bracket first, closing bracket later. -/
def bracketStart (o c : Char) (s : List Char) : Bool :=
  match s with
  | x :: rest => x == o && rest.contains c
  | [] => false

def titleKeywords : List String := ["接龙", "循环", "服务", "挽留", "群", "统计"]

/-- `ReportProcessor._is_title_line`. -/
def is_title_line (line : String) : Bool :=
  if (pyStrip line).data.isEmpty then true
  else if bracketStart '[' ']' (pyStrip line).data
      || bracketStart '【' '】' (pyStrip line).data
      || seqContains "月".data "日".data (pyStrip line).data
      || seqContains "接龙".data "群".data (pyStrip line).data
      || seqContains "循环".data "服务".data (pyStrip line).data
      || seqContains "拆降".data "挽留".data (pyStrip line).data then true
  else
    match (pyStrip line).data.filter (fun c => c ≠ ' ') with
    | c :: _ =>
      if titleNumeralChar c then false
      else titleKeywords.any (fun k => pyIn k (pyStrip line))
    | [] => titleKeywords.any (fun k => pyIn k (pyStrip line))

/-! ### ReportProcessor: branch and manager extraction -/

/-- `branch.replace('支局', '').replace('分局', '')`. -/
def branchShortName (branch : String) : String :=
  removeAll "分局" (removeAll "支局" branch)

/-- `ReportProcessor._extract_branch_and_manager`: three passes over the
configured branches (full name containment; short name containment; short
or full name containment), each pass continuing with the next branch when
`find_manager` fails, later passes only reached when a whole earlier pass
failed. -/
def extract_branch_and_manager (to_pinyin : String → String) (roster : Roster)
    (line : String) : Option (String × String × String) :=
  match roster.findSome? (fun bm =>
      if pyIn bm.1 line then
        match find_manager to_pinyin roster bm.1 (removeAll bm.1 line) with
        | some m => some (bm.1, m, removeAll bm.1 line)
        | none => none
      else none) with
  | some r => some r
  | none =>
    match roster.findSome? (fun bm =>
        if pyIn (branchShortName bm.1) line then
          match find_manager to_pinyin roster bm.1 (removeAll (branchShortName bm.1) line) with
          | some m => some (bm.1, m, removeAll (branchShortName bm.1) line)
          | none => none
        else none) with
    | some r => some r
    | none =>
      roster.findSome? (fun bm =>
        if pyIn (branchShortName bm.1) line || pyIn bm.1 line then
          match find_manager to_pinyin roster bm.1 (removeAll (branchShortName bm.1) line) with
          | some m => some (bm.1, m, removeAll (branchShortName bm.1) line)
          | none => none
        else none)

/-! ### ReportProcessor: accumulator state -/

structure Row where
  branch : String
  manager : String
  photo : String
  lock_storage : Nat
  current_month_recovery : Nat
  last_month_recovery : Nat
  high_risk_recovery : Nat
  dismantle_retention : Nat
  downgrade_retention : Nat
  total : Nat
deriving DecidableEq

def Row.get (r : Row) : Category → Nat
  | .lock_storage => r.lock_storage
  | .current_month_recovery => r.current_month_recovery
  | .last_month_recovery => r.last_month_recovery
  | .high_risk_recovery => r.high_risk_recovery
  | .dismantle_retention => r.dismantle_retention
  | .downgrade_retention => r.downgrade_retention

def Row.setCat (r : Row) : Category → Nat → Row
  | .lock_storage, v => { r with lock_storage := v }
  | .current_month_recovery, v => { r with current_month_recovery := v }
  | .last_month_recovery, v => { r with last_month_recovery := v }
  | .high_risk_recovery, v => { r with high_risk_recovery := v }
  | .dismantle_retention, v => { r with dismantle_retention := v }
  | .downgrade_retention, v => { r with downgrade_retention := v }

/-- A freshly seeded accumulator row of `_init_manager_data`. -/
def zeroRow (branch manager : String) : Row :=
  ⟨branch, manager, "", 0, 0, 0, 0, 0, 0, 0⟩

/-- `ReportProcessor._update_total`. -/
def update_total (r : Row) : Row :=
  { r with
    total := r.lock_storage + r.current_month_recovery + r.last_month_recovery +
      r.high_risk_recovery + r.dismantle_retention + r.downgrade_retention }

/-- `manager_data[key][chinese_name] += num` followed by `_update_total`. -/
def addToCategory (r : Row) (c : Category) (num : Nat) : Row :=
  update_total (r.setCat c (r.get c + num))

/-- The `manager_data` dict, in insertion order. -/
abbrev ManagerData := List ((String × String) × Row)

/-- Python dict assignment `d[k] = v`: overwrite in place, else append. -/
def dictSet (md : ManagerData) (k : String × String) (v : Row) : ManagerData :=
  if md.any (fun kv => kv.1 == k) then
    md.map (fun kv => if kv.1 == k then (kv.1, v) else kv)
  else md ++ [(k, v)]

/-- `key in manager_data` / `manager_data[key]` read. -/
def mdLookup (md : ManagerData) (k : String × String) : Option Row :=
  (md.find? (fun kv => kv.1 == k)).map (fun kv => kv.2)

/-- In-place mutation of the row bound to an existing key. -/
def mdUpdate (md : ManagerData) (k : String × String) (f : Row → Row) : ManagerData :=
  md.map (fun kv => if kv.1 == k then (kv.1, f kv.2) else kv)

/-- All `(branch, manager)` pairs of the roster in the iteration order of
the nested loops of `_init_manager_data`. -/
def rosterPairs (roster : Roster) : List (String × String) :=
  roster.flatMap (fun bm => bm.2.map (fun m => (bm.1, m)))

/-- `ReportProcessor._init_manager_data` (the nested branch/manager loops
perform one dict assignment per roster pair, in pair order). -/
def seedManagerData (roster : Roster) : ManagerData :=
  (rosterPairs roster).foldl (fun md p => dictSet md p (zeroRow p.1 p.2)) []

structure ProcState where
  managerData : ManagerData
  exceptionRecords : List String
  processedLines : List String
  allLines : List String
deriving DecidableEq

/-- Python `set.add`, with the set modeled as its insertion-ordered list of
distinct elements (only membership and iteration are ever used). -/
def setAdd (l : List String) (x : String) : List String :=
  if l.contains x then l else l ++ [x]

/-- The processor state right after `__init__`. -/
def seedState (roster : Roster) : ProcState :=
  ⟨seedManagerData roster, [], [], []⟩

/-! ### ReportProcessor.process_all_data -/

/-- The `'支局' in line or '分局' in line` bookkeeping of the main loop. -/
def recordAllLines (st : ProcState) (line : String) : ProcState :=
  if pyIn "支局" line || pyIn "分局" line then
    { st with allLines := setAdd st.allLines line }
  else st

/-- The resolution/classification part of one iteration of the main loop,
after the guards: failure of branch extraction or of classification appends
the line to the exception records; a match increments the category counter
(by the extracted count for the three recovery categories, else by 1) and
records the line as processed.  An extracted key absent from `manager_data`
would be skipped silently (the `key not in self.manager_data` test). -/
def processResolved (cfg : BusinessConfig) (roster : Roster)
    (to_pinyin : String → String) (st : ProcState) (line : String) : ProcState :=
  match extract_branch_and_manager to_pinyin roster line with
  | none => { st with exceptionRecords := st.exceptionRecords ++ [line] }
  | some (b, m, _) =>
    if (mdLookup st.managerData (b, m)).isNone then st
    else
      match classify cfg line with
      | some c =>
        { st with
          managerData := mdUpdate st.managerData (b, m)
            (fun r => addToCategory r c
              (if c ∈ recoveryCategories then extract_number line else 1)),
          processedLines := setAdd st.processedLines line }
      | none => { st with exceptionRecords := st.exceptionRecords ++ [line] }

/-- One iteration of the main loop of `process_all_data`: strip, skip lines
that are empty or digit-free, skip title lines, record lines mentioning
支局/分局, then resolve and classify. -/
def processLine (cfg : BusinessConfig) (roster : Roster)
    (to_pinyin : String → String) (st : ProcState) (rawLine : String) : ProcState :=
  if (pyStrip rawLine).data.isEmpty || !(pyStrip rawLine).data.any pyDigit then st
  else if is_title_line (pyStrip rawLine) then st
  else
    processResolved cfg roster to_pinyin
      (recordAllLines st (pyStrip rawLine)) (pyStrip rawLine)

/-- `ReportProcessor.process_all_data`. -/
def process_all_data (cfg : BusinessConfig) (roster : Roster)
    (to_pinyin : String → String) (st : ProcState) (lines : List String) : ProcState :=
  lines.foldl (processLine cfg roster to_pinyin) st

/-! ### ReportProcessor._process_unmatched_records and generate_report -/

/-- One iteration of `_process_unmatched_records`: a recorded 支局/分局 line
that was never processed is appended to the exception records unless
already present.  The source's if/else on `_extract_branch_and_manager`
appends identically in both branches, so the re-resolution has no
observable effect. -/
def unmatchedStep (st : ProcState) (l : String) : ProcState :=
  if !(st.processedLines.contains (pyStrip l)) then
    if !(st.exceptionRecords.contains (pyStrip l)) then
      { st with exceptionRecords := st.exceptionRecords ++ [pyStrip l] }
    else st
  else st

def process_unmatched_records (st : ProcState) : ProcState :=
  st.allLines.foldl unmatchedStep st

/-- Python string `<`/`sorted` order: lexicographic by code point. -/
def lexLe : List Char → List Char → Bool
  | [], _ => true
  | _ :: _, [] => false
  | a :: as, b :: bs =>
    if a.toNat < b.toNat then true
    else if b.toNat < a.toNat then false
    else lexLe as bs

def strLeP (a b : String) : Prop := lexLe a.data b.data = true

instance : DecidableRel strLeP :=
  fun a b => inferInstanceAs (Decidable (lexLe a.data b.data = true))

/-- The `key=lambda x: x["存量经理"]` sort order on rows. -/
def rowLeP (x y : Row) : Prop := lexLe x.manager.data y.manager.data = true

instance : DecidableRel rowLeP :=
  fun x y => inferInstanceAs (Decidable (lexLe x.manager.data y.manager.data = true))

/-- The `branch_groups` dict: each row appended to its branch's list, new
branches appended at the end (dict insertion order). -/
def addToGroup (gs : List (String × List Row)) (b : String) (r : Row) :
    List (String × List Row) :=
  if gs.any (fun g => g.1 == b) then
    gs.map (fun g => if g.1 == b then (g.1, g.2 ++ [r]) else g)
  else gs ++ [(b, [r])]

def branchGroups (md : ManagerData) : List (String × List Row) :=
  md.foldl (fun gs kv => addToGroup gs kv.1.1 kv.2) []

def groupRows (gs : List (String × List Row)) (b : String) : List Row :=
  ((gs.find? (fun g => g.1 == b)).map (fun g => g.2)).getD []

/-- The branch names of `manager_data` in first-appearance order: the key
list of the `branch_groups` dict. -/
def branchKeys (md : ManagerData) : List String :=
  md.foldl (fun ks kv => if ks.any (fun x => x == kv.1.1) then ks else ks ++ [kv.1.1]) []

/-- Every accumulator row carries its own key in its 分支局/存量经理 fields
(true of the seeded data and preserved by every update). -/
def mdCoherent (md : ManagerData) : Prop :=
  ∀ kv ∈ md, kv.2.branch = kv.1.1 ∧ kv.2.manager = kv.1.2

/-- The per-branch 小计 row: per-column sums over the branch's rows. -/
def subtotalRow (b : String) (rows : List Row) : Row :=
  ⟨b, "小计", "",
    (rows.map (fun r => r.lock_storage)).sum,
    (rows.map (fun r => r.current_month_recovery)).sum,
    (rows.map (fun r => r.last_month_recovery)).sum,
    (rows.map (fun r => r.high_risk_recovery)).sum,
    (rows.map (fun r => r.dismantle_retention)).sum,
    (rows.map (fun r => r.downgrade_retention)).sum,
    (rows.map (fun r => r.total)).sum⟩

/-- The final 总计 row: per-column sums over all manager rows. -/
def grandRow (rows : List Row) : Row :=
  ⟨"总计", "", "",
    (rows.map (fun r => r.lock_storage)).sum,
    (rows.map (fun r => r.current_month_recovery)).sum,
    (rows.map (fun r => r.last_month_recovery)).sum,
    (rows.map (fun r => r.high_risk_recovery)).sum,
    (rows.map (fun r => r.dismantle_retention)).sum,
    (rows.map (fun r => r.downgrade_retention)).sum,
    (rows.map (fun r => r.total)).sum⟩

/-- The report list built by `generate_report`: for each branch name in
sorted order, its rows sorted by manager name followed by the branch's
小计 row, and one final 总计 row. -/
def buildReport (md : ManagerData) : List Row :=
  (((branchGroups md).map (fun g => g.1)).insertionSort strLeP).flatMap
    (fun b =>
      (groupRows (branchGroups md) b).insertionSort rowLeP ++
        [subtotalRow b (groupRows (branchGroups md) b)]) ++
  [grandRow (md.map (fun kv => kv.2))]

/-- `ReportProcessor.generate_report` (it first runs
`_process_unmatched_records`, then builds the report rows and returns them
with the exception records). -/
def generate_report (st : ProcState) : List Row × List String :=
  (buildReport (process_unmatched_records st).managerData,
   (process_unmatched_records st).exceptionRecords)

/-- The whole manager pipeline on an already split-and-stripped line list:
seed from the roster, process all lines, emit the report. -/
def runReport (cfg : BusinessConfig) (roster : Roster)
    (to_pinyin : String → String) (lines : List String) : List Row × List String :=
  generate_report (process_all_data cfg roster to_pinyin (seedState roster) lines)

/-- A report column holding a number: one per category, or the 合计 column. -/
def colVal : Option Category → Row → Nat
  | some c, r => r.get c
  | none, r => r.total

/-- The "the line was aggregated" outcome of one main-loop iteration, `st`
the state before, `st'` after, `line` the stripped line: the exception
records are untouched, the line is recorded as processed, and exactly one
category counter of one manager was incremented (by the extracted count for
a recovery category, by 1 otherwise). -/
def aggregatedOutcome (st st' : ProcState) (line : String) : Prop :=
  st'.exceptionRecords = st.exceptionRecords ∧
  st'.processedLines = setAdd st.processedLines line ∧
  ∃ b m c, st'.managerData = mdUpdate st.managerData (b, m)
    (fun r => addToCategory r c
      (if c ∈ recoveryCategories then extract_number line else 1))

/-- The "the line went to the exception list" outcome: the stripped line is
appended to the exception records and the counters are untouched. -/
def exceptionOutcome (st st' : ProcState) (line : String) : Prop :=
  st'.exceptionRecords = st.exceptionRecords ++ [line] ∧
  st'.managerData = st.managerData ∧
  st'.processedLines = st.processedLines

/-! ### End of definitions -/

/-! ### Helper lemmas -/

/-- Evaluate `pyRatio` once the match size and lengths are known. -/
theorem pyRatio_eval (la lb : List Char) (m p q : Nat)
    (hm : matchTotal la lb = m) (hp : la.length = p) (hq : lb.length = q)
    (hpq : p + q ≠ 0) : pyRatio la lb = (2 * m : ℚ) / (p + q : ℚ) := by
  simp only [pyRatio, hm, hp, hq]
  rw [if_neg hpq]

theorem recordAllLines_managerData (st : ProcState) (l : String) :
    (recordAllLines st l).managerData = st.managerData := by
  unfold recordAllLines; split <;> rfl

theorem recordAllLines_exceptionRecords (st : ProcState) (l : String) :
    (recordAllLines st l).exceptionRecords = st.exceptionRecords := by
  unfold recordAllLines; split <;> rfl

theorem recordAllLines_processedLines (st : ProcState) (l : String) :
    (recordAllLines st l).processedLines = st.processedLines := by
  unfold recordAllLines; split <;> rfl

/-- Whatever succeeds in `find_manager` comes from the branch's roster list. -/
theorem find_manager_mem (to_pinyin : String → String) (roster : Roster)
    (branch text m : String)
    (h : find_manager to_pinyin roster branch text = some m) :
    m ∈ rosterGet roster branch := by
  unfold find_manager at h
  split at h
  next heq => cases h; exact List.mem_of_find?_eq_some heq
  next =>
    split at h
    next heq => cases h; exact List.mem_of_find?_eq_some heq
    next =>
      split at h
      next heq => cases h; exact List.mem_of_find?_eq_some heq
      next => exact List.mem_of_find?_eq_some h

/-- Whatever `_extract_branch_and_manager` returns pairs a configured branch
with one of that branch's configured managers. -/
theorem extract_bm_mem (to_pinyin : String → String) (roster : Roster)
    (line b m rem : String)
    (h : extract_branch_and_manager to_pinyin roster line = some (b, m, rem)) :
    m ∈ rosterGet roster b := by
  unfold extract_branch_and_manager at h
  split at h
  next heq =>
    cases h
    obtain ⟨bm, _, hf⟩ := List.exists_of_findSome?_eq_some heq
    split at hf
    · split at hf
      next heqf => cases hf; exact find_manager_mem _ _ _ _ _ heqf
      next => cases hf
    · cases hf
  next =>
    split at h
    next heq =>
      cases h
      obtain ⟨bm, _, hf⟩ := List.exists_of_findSome?_eq_some heq
      split at hf
      · split at hf
        next heqf => cases hf; exact find_manager_mem _ _ _ _ _ heqf
        next => cases hf
      · cases hf
    next =>
      obtain ⟨bm, _, hf⟩ := List.exists_of_findSome?_eq_some h
      split at hf
      · split at hf
        next heqf => cases hf; exact find_manager_mem _ _ _ _ _ heqf
        next => cases hf
      · cases hf

theorem mem_rosterPairs (roster : Roster) (b m : String)
    (h : m ∈ rosterGet roster b) : (b, m) ∈ rosterPairs roster := by
  unfold rosterGet at h
  cases hf : roster.find? (fun bm => bm.1 == b) with
  | none => rw [hf] at h; simp at h
  | some bm =>
    rw [hf] at h
    simp at h
    have hb : bm.1 = b := by simpa using List.find?_some hf
    have hmem : bm ∈ roster := List.mem_of_find?_eq_some hf
    subst hb
    exact List.mem_flatMap.mpr ⟨bm, hmem, List.mem_map.mpr ⟨m, h, rfl⟩⟩

/-- Reading back the key just updated in place. -/
theorem mdLookup_mdUpdate (md : ManagerData) (k : String × String) (f : Row → Row) :
    mdLookup (mdUpdate md k f) k = (mdLookup md k).map f := by
  induction md with
  | nil => rfl
  | cons kv t ih =>
    unfold mdUpdate mdLookup
    cases hk : (kv.1 == k) with
    | true =>
      rw [List.map_cons, if_pos hk]
      rw [List.find?_cons_of_pos _ (by simpa using hk),
        List.find?_cons_of_pos _ (by simpa using hk)]
      rfl
    | false =>
      rw [List.map_cons, if_neg (by simp [hk])]
      rw [List.find?_cons_of_neg _ (by simp [hk]),
        List.find?_cons_of_neg _ (by simp [hk])]
      exact ih

theorem append_singleton_ne (l : List String) (x : String) : l ++ [x] ≠ l := by
  intro h
  have := congrArg List.length h
  simp at this

/-- A line that passes the empty/digit/title guards reaches the
resolution/classification stage. -/
theorem processLine_survives (cfg : BusinessConfig) (roster : Roster)
    (to_pinyin : String → String) (st : ProcState) (rawLine : String)
    (h1 : (pyStrip rawLine).data.isEmpty = false)
    (h2 : (pyStrip rawLine).data.any pyDigit = true)
    (h3 : is_title_line (pyStrip rawLine) = false) :
    processLine cfg roster to_pinyin st rawLine =
      processResolved cfg roster to_pinyin
        (recordAllLines st (pyStrip rawLine)) (pyStrip rawLine) := by
  unfold processLine
  rw [h1, h2, h3]
  rfl

/-- Counting exceptions through the `_process_unmatched_records` fold: a
line's multiplicity is unchanged, or it was absent and is now 1. -/
theorem unmatched_fold_count (xs : List String) (st : ProcState) (l : String) :
    ((xs.foldl unmatchedStep st).exceptionRecords.count l
        = st.exceptionRecords.count l) ∨
    (st.exceptionRecords.count l = 0 ∧
      (xs.foldl unmatchedStep st).exceptionRecords.count l = 1) := by
  induction xs generalizing st with
  | nil => left; rfl
  | cons x xs ih =>
    rw [List.foldl_cons]
    have hstep : ((unmatchedStep st x).exceptionRecords.count l
          = st.exceptionRecords.count l) ∨
        (st.exceptionRecords.count l = 0 ∧
          (unmatchedStep st x).exceptionRecords.count l = 1) := by
      unfold unmatchedStep
      split
      · split
        · rename_i hexc
          by_cases hxl : pyStrip x = l
          · subst hxl
            have hnotmem : pyStrip x ∉ st.exceptionRecords := by simpa using hexc
            refine Or.inr ⟨List.count_eq_zero.mpr hnotmem, ?_⟩
            show (st.exceptionRecords ++ [pyStrip x]).count (pyStrip x) = 1
            rw [List.count_append, List.count_eq_zero.mpr hnotmem]
            simp
          · left
            show (st.exceptionRecords ++ [pyStrip x]).count l = _
            rw [List.count_append]
            simp [List.count_singleton, hxl]
        · left; rfl
      · left; rfl
    rcases hstep with h | ⟨h0, h1⟩
    · rcases ih (unmatchedStep st x) with h' | ⟨h0', h1'⟩
      · left; rw [h', h]
      · right; rw [h] at h0'; exact ⟨h0', h1'⟩
    · rcases ih (unmatchedStep st x) with h' | ⟨h0', h1'⟩
      · right; exact ⟨h0, by rw [h']; exact h1⟩
      · rw [h1] at h0'; cases h0'

/-! ### The grouping of `generate_report`, in closed form -/

theorem branchKeys_step (md : ManagerData) (e : (String × String) × Row) :
    branchKeys (md ++ [e]) =
      if (branchKeys md).any (fun x => x == e.1.1) then branchKeys md
      else branchKeys md ++ [e.1.1] := by
  unfold branchKeys
  rw [List.foldl_append]
  rfl

theorem mem_branchKeys (md : ManagerData) (b : String) :
    b ∈ branchKeys md ↔ b ∈ md.map (fun kv => kv.1.1) := by
  induction md using List.reverseRecOn with
  | nil => simp [branchKeys]
  | append_singleton md e ih =>
    rw [branchKeys_step]
    by_cases h : ((branchKeys md).any (fun x => x == e.1.1)) = true
    · rw [if_pos h]
      have he : e.1.1 ∈ branchKeys md := by
        obtain ⟨x, hx, hxe⟩ := List.any_eq_true.mp h
        rwa [show x = e.1.1 from by simpa using hxe] at hx
      simp only [List.map_append, List.map_cons, List.map_nil, List.mem_append,
        List.mem_singleton]
      constructor
      · intro hb; exact Or.inl (ih.mp hb)
      · rintro (hb | hb)
        · exact ih.mpr hb
        · subst hb; exact he
    · rw [if_neg h]
      simp only [List.map_append, List.map_cons, List.map_nil, List.mem_append,
        List.mem_singleton, ih]

theorem branchKeys_nodup (md : ManagerData) : (branchKeys md).Nodup := by
  induction md using List.reverseRecOn with
  | nil => simp [branchKeys]
  | append_singleton md e ih =>
    rw [branchKeys_step]
    by_cases h : ((branchKeys md).any (fun x => x == e.1.1)) = true
    · rw [if_pos h]; exact ih
    · rw [if_neg h]
      have hnm : e.1.1 ∉ branchKeys md := fun hmm =>
        h (List.any_eq_true.mpr ⟨e.1.1, hmm, by simp⟩)
      simp [List.nodup_append, ih, hnm]

theorem branchGroups_step (md : ManagerData) (e : (String × String) × Row) :
    branchGroups (md ++ [e]) = addToGroup (branchGroups md) e.1.1 e.2 := by
  unfold branchGroups
  rw [List.foldl_append]
  rfl

theorem branchGroups_eq (md : ManagerData) :
    branchGroups md = (branchKeys md).map (fun b =>
      (b, (md.filter (fun kv => kv.1.1 == b)).map (fun kv => kv.2))) := by
  induction md using List.reverseRecOn with
  | nil => rfl
  | append_singleton md e ih =>
    rw [branchGroups_step, branchKeys_step, ih]
    unfold addToGroup
    by_cases h : ((branchKeys md).any (fun x => x == e.1.1)) = true
    · rw [if_pos h, if_pos (by simpa [List.any_map] using h)]
      rw [List.map_map]
      apply List.map_congr_left
      intro b hb
      by_cases hbe : b = e.1.1
      · subst hbe
        simp only [Function.comp_apply, beq_self_eq_true, if_pos]
        rw [List.filter_append]
        simp
      · have hne : (e.1.1 == b) = false := by
          simp [beq_eq_false_iff_ne]; exact fun hc => hbe hc.symm
        simp only [Function.comp_apply]
        rw [if_neg (by simp [hbe]), List.filter_append]
        simp [hne]
    · rw [if_neg h, if_neg (by simpa [List.any_map] using h)]
      rw [List.map_append]
      congr 1
      · apply List.map_congr_left
        intro b hb
        have hne : (e.1.1 == b) = false := by
          simp only [beq_eq_false_iff_ne]
          intro hc
          exact h (List.any_eq_true.mpr ⟨b, hb, by simp [hc]⟩)
        rw [List.filter_append]
        simp [hne]
      · have hempty : md.filter (fun kv => kv.1.1 == e.1.1) = [] := by
          rw [List.filter_eq_nil_iff]
          intro kv hkv hc
          apply h
          refine List.any_eq_true.mpr ⟨kv.1.1, ?_, hc⟩
          exact (mem_branchKeys md kv.1.1).mpr (List.mem_map.mpr ⟨kv, hkv, rfl⟩)
        simp [List.filter_append, hempty]

theorem branchGroups_keys (md : ManagerData) :
    (branchGroups md).map (fun g => g.1) = branchKeys md := by
  rw [branchGroups_eq, List.map_map]
  exact List.map_id' _

theorem find?_map_mk (ks : List String) (F : String → List Row) (b : String)
    (hb : b ∈ ks) :
    (ks.map (fun b' => (b', F b'))).find? (fun g => g.1 == b) = some (b, F b) := by
  induction ks with
  | nil => cases hb
  | cons k ks ih =>
    rw [List.map_cons]
    by_cases hk : k = b
    · subst hk
      rw [List.find?_cons_of_pos _ (by simp)]
    · rw [List.find?_cons_of_neg _ (by simp [hk])]
      rcases List.mem_cons.mp hb with hb' | hb'
      · exact absurd hb'.symm hk
      · exact ih hb'

theorem groupRows_eq (md : ManagerData) (b : String) (hb : b ∈ branchKeys md) :
    groupRows (branchGroups md) b
      = (md.filter (fun kv => kv.1.1 == b)).map (fun kv => kv.2) := by
  unfold groupRows
  rw [branchGroups_eq, find?_map_mk _ _ _ hb]
  rfl

theorem any_beq_iff_mem (ks : List String) (x : String) :
    ((ks.any (fun y => y == x)) = true) ↔ x ∈ ks := by
  rw [List.any_eq_true]
  constructor
  · rintro ⟨y, hy, hyx⟩
    rwa [show y = x from by simpa using hyx] at hy
  · intro hx; exact ⟨x, hx, by simp⟩

/-- Summing a per-branch function that vanishes away from a single key. -/
theorem sum_if_single (ks : List String) (b : String) (K : Nat) (f : String → Nat)
    (hnd : ks.Nodup) (hb : b ∈ ks)
    (hf : ∀ b' ∈ ks, f b' = if b' = b then K else 0) :
    (ks.map f).sum = K := by
  induction ks with
  | nil => cases hb
  | cons k ks ih =>
    rw [List.map_cons, List.sum_cons]
    rcases List.mem_cons.mp hb with hbk | hbk
    · subst hbk
      rw [hf b (List.mem_cons_self _ _), if_pos rfl]
      have hz : (ks.map f).sum = 0 := by
        apply List.sum_eq_zero
        intro x hx
        obtain ⟨b', hb', rfl⟩ := List.mem_map.mp hx
        rw [hf b' (List.mem_cons_of_mem _ hb'), if_neg]
        intro hc; subst hc
        exact (List.nodup_cons.mp hnd).1 hb'
      omega
    · have hkb : k ≠ b := fun hc => (List.nodup_cons.mp hnd).1 (hc ▸ hbk)
      rw [hf k (List.mem_cons_self _ _), if_neg hkb,
        ih (List.nodup_cons.mp hnd).2 hbk
          (fun b' hb' => hf b' (List.mem_cons_of_mem _ hb'))]
      omega

/-- The branch groups partition `manager_data`: summing any measure group by
group equals summing it over the whole dict. -/
theorem sum_partition (md : ManagerData) (f : (String × String) × Row → Nat) :
    ((branchKeys md).map
        (fun b => ((md.filter (fun kv => kv.1.1 == b)).map f).sum)).sum
      = (md.map f).sum := by
  induction md using List.reverseRecOn with
  | nil => rfl
  | append_singleton md e ih =>
    rw [branchKeys_step]
    by_cases h : ((branchKeys md).any (fun x => x == e.1.1)) = true
    · rw [if_pos h]
      have he : e.1.1 ∈ branchKeys md := (any_beq_iff_mem _ _).mp h
      have hsum : ∀ b ∈ branchKeys md,
          (fun b => (((md ++ [e]).filter (fun kv => kv.1.1 == b)).map f).sum) b
            = (fun b => ((md.filter (fun kv => kv.1.1 == b)).map f).sum
                + (if b = e.1.1 then f e else 0)) b := by
        intro b hb
        dsimp only
        by_cases hbe : b = e.1.1
        · subst hbe
          rw [List.filter_append]
          simp
        · have hne : (e.1.1 == b) = false := by
            simp only [beq_eq_false_iff_ne]
            exact fun hc => hbe hc.symm
          rw [List.filter_append]
          simp [hne, hbe]
      rw [List.map_congr_left hsum, List.sum_map_add,
        sum_if_single _ _ (f e) _ (branchKeys_nodup md) he (fun b' _ => rfl), ih,
        List.map_append, List.sum_append]
      simp
    · rw [if_neg h]
      have hne : e.1.1 ∉ branchKeys md := fun hm => h ((any_beq_iff_mem _ _).mpr hm)
      rw [List.map_append, List.sum_append]
      have hsum : ∀ b ∈ branchKeys md,
          (fun b => (((md ++ [e]).filter (fun kv => kv.1.1 == b)).map f).sum) b
            = (fun b => ((md.filter (fun kv => kv.1.1 == b)).map f).sum) b := by
        intro b hb
        dsimp only
        have : (e.1.1 == b) = false := by
          simp only [beq_eq_false_iff_ne]
          intro hc
          exact hne (hc ▸ hb)
        rw [List.filter_append]
        simp [this]
      have hempty : md.filter (fun kv => kv.1.1 == e.1.1) = [] := by
        rw [List.filter_eq_nil_iff]
        intro kv hkv hc
        exact hne ((mem_branchKeys md e.1.1).mpr
          (List.mem_map.mpr ⟨kv, hkv, by simpa using hc⟩))
      rw [List.map_congr_left hsum, ih]
      simp [List.filter_append, hempty]

theorem countP_eq_sum_ite {α : Type} (l : List α) (p : α → Bool) :
    l.countP p = (l.map (fun x => if p x then 1 else 0)).sum := by
  induction l with
  | nil => rfl
  | cons x l ih =>
    rw [List.countP_cons, List.map_cons, List.sum_cons, ih]
    by_cases h : p x = true <;> simp [h] <;> omega

/-- The counting form of the partition lemma. -/
theorem countP_partition (md : ManagerData) (p : (String × String) × Row → Bool) :
    ((branchKeys md).map
        (fun b => (md.filter (fun kv => kv.1.1 == b)).countP p)).sum
      = md.countP p := by
  have hmain := sum_partition md (fun kv => if p kv then 1 else 0)
  rw [countP_eq_sum_ite, ← hmain]
  congr 1
  apply List.map_congr_left
  intro b _
  rw [countP_eq_sum_ite]

/-! ### Preservation of the accumulator's keys and key-coherence -/

theorem mdUpdate_keys (md : ManagerData) (k : String × String) (f : Row → Row) :
    (mdUpdate md k f).map (fun kv => kv.1) = md.map (fun kv => kv.1) := by
  unfold mdUpdate
  rw [List.map_map]
  apply List.map_congr_left
  intro kv _
  by_cases h : kv.1 = k <;> simp [h]

theorem processLine_keys (cfg : BusinessConfig) (roster : Roster)
    (to_pinyin : String → String) (st : ProcState) (rawLine : String) :
    (processLine cfg roster to_pinyin st rawLine).managerData.map (fun kv => kv.1)
      = st.managerData.map (fun kv => kv.1) := by
  unfold processLine
  split
  · rfl
  split
  · rfl
  unfold processResolved
  split
  · exact congrArg (List.map _) (recordAllLines_managerData st _)
  split
  · exact congrArg (List.map _) (recordAllLines_managerData st _)
  split
  · dsimp only
    exact (mdUpdate_keys (recordAllLines st (pyStrip rawLine)).managerData _ _).trans
      (congrArg (List.map _) (recordAllLines_managerData st (pyStrip rawLine)))
  · exact congrArg (List.map _) (recordAllLines_managerData st _)

theorem process_all_data_keys (cfg : BusinessConfig) (roster : Roster)
    (to_pinyin : String → String) (lines : List String) (st : ProcState) :
    (process_all_data cfg roster to_pinyin st lines).managerData.map (fun kv => kv.1)
      = st.managerData.map (fun kv => kv.1) := by
  induction lines generalizing st with
  | nil => rfl
  | cons x xs ih =>
    exact (ih (processLine cfg roster to_pinyin st x)).trans
      (processLine_keys cfg roster to_pinyin st x)

theorem unmatchedStep_managerData (st : ProcState) (l : String) :
    (unmatchedStep st l).managerData = st.managerData := by
  unfold unmatchedStep
  split
  · split <;> rfl
  · rfl

theorem process_unmatched_managerData (st : ProcState) :
    (process_unmatched_records st).managerData = st.managerData := by
  unfold process_unmatched_records
  have hgen : ∀ (xs : List String) (s : ProcState),
      (xs.foldl unmatchedStep s).managerData = s.managerData := by
    intro xs
    induction xs with
    | nil => intro s; rfl
    | cons x xs ih =>
      intro s
      exact (ih (unmatchedStep s x)).trans (unmatchedStep_managerData s x)
  exact hgen st.allLines st

theorem addToCategory_branch (r : Row) (c : Category) (n : Nat) :
    (addToCategory r c n).branch = r.branch := by
  cases c <;> rfl

theorem addToCategory_manager (r : Row) (c : Category) (n : Nat) :
    (addToCategory r c n).manager = r.manager := by
  cases c <;> rfl

theorem mdUpdate_coherent (md : ManagerData) (k : String × String) (f : Row → Row)
    (hcoh : mdCoherent md)
    (hf : ∀ r, (f r).branch = r.branch ∧ (f r).manager = r.manager) :
    mdCoherent (mdUpdate md k f) := by
  intro kv hkv
  obtain ⟨kv₀, hkv₀, heq⟩ := List.mem_map.mp hkv
  by_cases h : (kv₀.1 == k) = true
  · rw [if_pos h] at heq
    subst heq
    exact ⟨((hf kv₀.2).1).trans (hcoh kv₀ hkv₀).1,
      ((hf kv₀.2).2).trans (hcoh kv₀ hkv₀).2⟩
  · rw [if_neg h] at heq
    subst heq
    exact hcoh kv₀ hkv₀

theorem processLine_coherent (cfg : BusinessConfig) (roster : Roster)
    (to_pinyin : String → String) (st : ProcState) (rawLine : String)
    (hcoh : mdCoherent st.managerData) :
    mdCoherent (processLine cfg roster to_pinyin st rawLine).managerData := by
  have hrec : mdCoherent (recordAllLines st (pyStrip rawLine)).managerData := by
    rwa [recordAllLines_managerData]
  unfold processLine
  split
  · exact hcoh
  split
  · exact hcoh
  unfold processResolved
  split
  · exact hrec
  split
  · exact hrec
  split
  · exact mdUpdate_coherent _ _ _ hrec
      (fun r => ⟨addToCategory_branch _ _ _, addToCategory_manager _ _ _⟩)
  · exact hrec

theorem process_all_data_coherent (cfg : BusinessConfig) (roster : Roster)
    (to_pinyin : String → String) (lines : List String) (st : ProcState)
    (hcoh : mdCoherent st.managerData) :
    mdCoherent (process_all_data cfg roster to_pinyin st lines).managerData := by
  induction lines generalizing st with
  | nil => exact hcoh
  | cons x xs ih =>
    exact ih (processLine cfg roster to_pinyin st x)
      (processLine_coherent cfg roster to_pinyin st x hcoh)

/-! ### The seeded accumulator -/

theorem dictSet_mem (md : ManagerData) (k : String × String) (v : Row)
    (kv : (String × String) × Row) (h : kv ∈ dictSet md k v) :
    kv ∈ md ∨ kv = (k, v) := by
  unfold dictSet at h
  split at h
  · obtain ⟨kv₀, hkv₀, heq⟩ := List.mem_map.mp h
    by_cases hk : (kv₀.1 == k) = true
    · rw [if_pos hk] at heq
      right
      rw [← heq, show kv₀.1 = k from by simpa using hk]
    · rw [if_neg hk] at heq
      left
      rwa [← heq]
  · rcases List.mem_append.mp h with h' | h'
    · left; exact h'
    · right; simpa using h'

theorem seed_fold_mem (ps : List (String × String)) (md : ManagerData)
    (hmd : ∀ kv ∈ md, ∃ p : String × String, kv = (p, zeroRow p.1 p.2))
    (kv : (String × String) × Row)
    (h : kv ∈ ps.foldl (fun md p => dictSet md p (zeroRow p.1 p.2)) md) :
    ∃ p : String × String, kv = (p, zeroRow p.1 p.2) := by
  induction ps generalizing md with
  | nil => exact hmd kv h
  | cons q ps ih =>
    refine ih _ ?_ h
    intro kv' hkv'
    rcases dictSet_mem _ _ _ _ hkv' with h' | h'
    · exact hmd kv' h'
    · exact ⟨q, h'⟩

theorem seedManagerData_mem (roster : Roster) (kv : (String × String) × Row)
    (h : kv ∈ seedManagerData roster) :
    ∃ p : String × String, kv = (p, zeroRow p.1 p.2) := by
  unfold seedManagerData at h
  exact seed_fold_mem _ [] (by intro kv' hkv'; cases hkv') kv h

theorem seed_coherent (roster : Roster) : mdCoherent (seedManagerData roster) := by
  intro kv h
  obtain ⟨p, rfl⟩ := seedManagerData_mem roster kv h
  exact ⟨rfl, rfl⟩

theorem seed_fold_keys (ps : List (String × String)) (md : ManagerData)
    (hnd : (md.map (fun kv => kv.1) ++ ps).Nodup) :
    (ps.foldl (fun md p => dictSet md p (zeroRow p.1 p.2)) md).map (fun kv => kv.1)
      = md.map (fun kv => kv.1) ++ ps := by
  induction ps generalizing md with
  | nil => simp
  | cons q ps ih =>
    have hq : q ∉ md.map (fun kv => kv.1) := by
      intro hqm
      have hdisj := (List.nodup_append.mp hnd).2.2
      exact hdisj hqm (List.mem_cons_self _ _)
    have hds : dictSet md q (zeroRow q.1 q.2) = md ++ [(q, zeroRow q.1 q.2)] := by
      unfold dictSet
      rw [if_neg]
      intro hc
      obtain ⟨kv, hm, he⟩ := List.any_eq_true.mp hc
      exact hq (List.mem_map.mpr ⟨kv, hm, by simpa using he⟩)
    show (ps.foldl (fun md p => dictSet md p (zeroRow p.1 p.2))
        (dictSet md q (zeroRow q.1 q.2))).map (fun kv => kv.1) = _
    rw [hds, ih]
    · simp
    · rw [List.map_append]
      simpa [List.append_assoc] using hnd

theorem seed_keys (roster : Roster) (hnd : (rosterPairs roster).Nodup) :
    (seedManagerData roster).map (fun kv => kv.1) = rosterPairs roster := by
  unfold seedManagerData
  simpa using seed_fold_keys (rosterPairs roster) [] (by simpa using hnd)

/-! ### Column values of the aggregate rows -/

theorem subtotalRow_colVal (col : Option Category) (b : String) (rows : List Row) :
    colVal col (subtotalRow b rows) = (rows.map (colVal col)).sum := by
  cases col with
  | none => rfl
  | some c => cases c <;> rfl

theorem grandRow_colVal (col : Option Category) (rows : List Row) :
    colVal col (grandRow rows) = (rows.map (colVal col)).sum := by
  cases col with
  | none => rfl
  | some c => cases c <;> rfl

theorem generate_report_fst (st : ProcState) :
    (generate_report st).1 = buildReport st.managerData := by
  unfold generate_report
  rw [process_unmatched_managerData]

/-- Rows of a branch group are values of `manager_data` entries keyed by
that branch. -/
theorem groupRows_facts (md : ManagerData) (b' : String) (hb' : b' ∈ branchKeys md)
    (r : Row) (hr : r ∈ groupRows (branchGroups md) b') :
    ∃ kv ∈ md, r = kv.2 ∧ kv.1.1 = b' := by
  rw [groupRows_eq md b' hb'] at hr
  obtain ⟨kv, hkv, rfl⟩ := List.mem_map.mp hr
  exact ⟨kv, List.mem_of_mem_filter hkv, rfl, by simpa using List.of_mem_filter hkv⟩

/-- Splitting a filtered column sum over the report into its per-branch
blocks and the grand row. -/
theorem buildReport_filter_sum (md : ManagerData) (p : Row → Bool) (f : Row → Nat) :
    (((buildReport md).filter p).map f).sum
      = ((branchKeys md).map (fun b' =>
            (((groupRows (branchGroups md) b').filter p).map f).sum
            + (if p (subtotalRow b' (groupRows (branchGroups md) b'))
                then f (subtotalRow b' (groupRows (branchGroups md) b')) else 0))).sum
        + (if p (grandRow (md.map (fun kv => kv.2)))
            then f (grandRow (md.map (fun kv => kv.2))) else 0) := by
  unfold buildReport
  rw [branchGroups_keys]
  rw [List.filter_append, List.map_append, List.sum_append]
  congr 1
  · have hflat : ∀ ks : List String,
        ((((ks.flatMap (fun b' =>
              (groupRows (branchGroups md) b').insertionSort rowLeP
                ++ [subtotalRow b' (groupRows (branchGroups md) b')]))).filter p).map f).sum
          = (ks.map (fun b' =>
              (((groupRows (branchGroups md) b').filter p).map f).sum
              + (if p (subtotalRow b' (groupRows (branchGroups md) b'))
                  then f (subtotalRow b' (groupRows (branchGroups md) b')) else 0))).sum := by
      intro ks
      induction ks with
      | nil => rfl
      | cons k ks ihk =>
        rw [List.flatMap_cons, List.filter_append, List.map_append, List.sum_append, ihk,
          List.map_cons, List.sum_cons]
        congr 1
        rw [List.filter_append, List.map_append, List.sum_append]
        congr 1
        · exact (((List.perm_insertionSort rowLeP
            (groupRows (branchGroups md) k)).filter p).map f).sum_eq
        · by_cases hp : p (subtotalRow k (groupRows (branchGroups md) k)) = true <;>
            simp [List.filter_cons, hp]
    rw [hflat]
    exact (((List.perm_insertionSort strLeP (branchKeys md)).map _).sum_eq)
  · by_cases hp : p (grandRow (md.map (fun kv => kv.2))) = true <;>
      simp [List.filter_cons, hp]

theorem sum_map_one {α : Type} (l : List α) : (l.map (fun _ => (1 : Nat))).sum = l.length := by
  induction l with
  | nil => rfl
  | cons x t ih => simp [ih]; omega

/-- The row-count form of the report decomposition. -/
theorem buildReport_count (md : ManagerData) (p : Row → Bool) :
    ((buildReport md).filter p).length
      = ((branchKeys md).map (fun b' =>
            ((groupRows (branchGroups md) b').filter p).length
            + (if p (subtotalRow b' (groupRows (branchGroups md) b')) then 1 else 0))).sum
        + (if p (grandRow (md.map (fun kv => kv.2))) then 1 else 0) := by
  have h := buildReport_filter_sum md p (fun _ => 1)
  rw [sum_map_one] at h
  rw [h]
  congr 1
  apply congrArg
  apply List.map_congr_left
  intro b' _
  rw [sum_map_one]

/-- Membership in the report: a row is an entity row (a `manager_data`
value), a branch 小计 row, or the 总计 row. -/
theorem buildReport_mem (md : ManagerData) (r : Row) (hr : r ∈ buildReport md) :
    (∃ kv ∈ md, r = kv.2) ∨
    (∃ b' ∈ branchKeys md, r = subtotalRow b' (groupRows (branchGroups md) b')) ∨
    r = grandRow (md.map (fun kv => kv.2)) := by
  unfold buildReport at hr
  rw [branchGroups_keys] at hr
  rcases List.mem_append.mp hr with hr | hr
  · obtain ⟨b', hb', hrb⟩ := List.mem_flatMap.mp hr
    have hb'' : b' ∈ branchKeys md := (List.mem_insertionSort _).mp hb'
    rcases List.mem_append.mp hrb with hrr | hrs
    · have hg : r ∈ groupRows (branchGroups md) b' := (List.mem_insertionSort _).mp hrr
      obtain ⟨kv, hkv, rfl, -⟩ := groupRows_facts md b' hb'' r hg
      exact Or.inl ⟨kv, hkv, rfl⟩
    · exact Or.inr (Or.inl ⟨b', hb'', by simpa using hrs⟩)
  · exact Or.inr (Or.inr (by simpa using hr))

theorem zeroRow_get (b m : String) (c : Category) : (zeroRow b m).get c = 0 := by
  cases c <;> rfl

theorem countP_pair_of_nodup (l : List (String × String)) (b m : String)
    (hnd : l.Nodup) (hx : (b, m) ∈ l) :
    l.countP (fun k => k.1 == b && k.2 == m) = 1 := by
  induction l with
  | nil => cases hx
  | cons a t ih =>
    rw [List.countP_cons]
    rcases List.mem_cons.mp hx with h | h
    · have hz : t.countP (fun k => k.1 == b && k.2 == m) = 0 := by
        rw [List.countP_eq_zero]
        intro k hk hc
        rw [Bool.and_eq_true] at hc
        obtain ⟨k1, k2⟩ := k
        have e1 : k1 = b := by simpa using hc.1
        have e2 : k2 = m := by simpa using hc.2
        subst e1; subst e2
        exact (List.nodup_cons.mp hnd).1 (h ▸ hk)
      rw [hz, ← h]
      simp
    · have ha : (a.1 == b && a.2 == m) = false := by
        by_cases h1 : a.1 = b
        · by_cases h2 : a.2 = m
          · exfalso
            apply (List.nodup_cons.mp hnd).1
            have hab : a = (b, m) := by
              obtain ⟨a1, a2⟩ := a
              simp_all
            rw [hab]
            exact h
          · simp [h2]
        · simp [h1]
      rw [ih (List.nodup_cons.mp hnd).2 h, ha]
      simp

/-! ### The sort order used by `generate_report` -/

theorem lexLe_total (a b : List Char) : lexLe a b = true ∨ lexLe b a = true := by
  induction a generalizing b with
  | nil => left; rfl
  | cons x xs ih =>
    cases b with
    | nil => right; rfl
    | cons y ys =>
      by_cases h1 : x.toNat < y.toNat
      · left; simp [lexLe, h1]
      · by_cases h2 : y.toNat < x.toNat
        · right; simp [lexLe, h2]
        · rcases ih ys with h | h
          · left; simp [lexLe, h1, h2, h]
          · right; simp [lexLe, h1, h2, h]

theorem lexLe_trans (a b c : List Char) (hab : lexLe a b = true)
    (hbc : lexLe b c = true) : lexLe a c = true := by
  induction a generalizing b c with
  | nil => rfl
  | cons x xs ih =>
    cases b with
    | nil => simp [lexLe] at hab
    | cons y ys =>
      cases c with
      | nil => simp [lexLe] at hbc
      | cons z zs =>
        simp only [lexLe] at hab hbc ⊢
        by_cases hxy : x.toNat < y.toNat
        · by_cases hyz : y.toNat < z.toNat
          · have hxz : x.toNat < z.toNat := Nat.lt_trans hxy hyz
            simp [hxz]
          · by_cases hzy : z.toNat < y.toNat
            · simp [hyz, hzy] at hbc
            · have hxz : x.toNat < z.toNat := by omega
              simp [hxz]
        · by_cases hyx : y.toNat < x.toNat
          · simp [hxy, hyx] at hab
          · have hxseq : lexLe xs ys = true := by simpa [hxy, hyx] using hab
            by_cases hyz : y.toNat < z.toNat
            · have hxz : x.toNat < z.toNat := by omega
              simp [hxz]
            · by_cases hzy : z.toNat < y.toNat
              · simp [hyz, hzy] at hbc
              · have hyseq : lexLe ys zs = true := by simpa [hyz, hzy] using hbc
                have hxz1 : ¬ x.toNat < z.toNat := by omega
                have hxz2 : ¬ z.toNat < x.toNat := by omega
                simp only [hxz1, hxz2, if_false]
                exact ih ys zs hxseq hyseq

instance : IsTotal String strLeP :=
  ⟨fun a b => lexLe_total a.data b.data⟩

instance : IsTrans String strLeP :=
  ⟨fun _ _ _ hab hbc => lexLe_trans _ _ _ hab hbc⟩

instance : IsTotal Row rowLeP :=
  ⟨fun a b => lexLe_total a.manager.data b.manager.data⟩

instance : IsTrans Row rowLeP :=
  ⟨fun _ _ _ hab hbc => lexLe_trans _ _ _ hab hbc⟩

/-! ### Claim theorems -/

/-- Claim C1.  The spec states `extract_points("2顺档5+10元") = 13 = 5 - 2 + 10`
via the three-group tier-slide shorthand.  The code disagrees: the generic
points pattern `(?:得|加|\+|增加)?\s*(\d+)\s*(?:分|积分)?` has an optional
prefix and suffix, so it already matches the bare digit `2` at position 0 and
the method returns 2; the three 顺档 shorthand patterns (so labeled by the
source's own comments, and promised by its docstring 统一处理常规积分和顺档格式)
are unreachable for every digit-containing text.  This theorem evaluates the
embedded code at the failing input. -/
theorem c1_extract_points_shorthand_returns_2 :
    extract_points_optimized none "2顺档5+10元" = some 2 := by decide

set_option maxRecDepth 8000 in
/-- Claim C8, counterexample.  The claimed symmetry of the phonetic
similarity fails: `difflib`'s matcher is order-sensitive.  On the Latin-only
pair `"abxcd"`/`"cdabrx"` (on which the transliteration is the identity) the
forward similarity is 6/11 but the reverse is 4/11. -/
theorem c8_similarity_not_symmetric :
    ¬ (pinyin_similarity to_pinyin_ascii "abxcd" "cdabrx" =
       pinyin_similarity to_pinyin_ascii "cdabrx" "abxcd") := by
  have h1 : pinyin_similarity to_pinyin_ascii "abxcd" "cdabrx" = (2 * 3 : ℚ) / (5 + 6 : ℚ) := by
    show pyRatio "abxcd".data "cdabrx".data = _
    exact pyRatio_eval _ _ 3 5 6 rfl rfl rfl (by norm_num)
  have h2 : pinyin_similarity to_pinyin_ascii "cdabrx" "abxcd" = (2 * 2 : ℚ) / (6 + 5 : ℚ) := by
    show pyRatio "cdabrx".data "abxcd".data = _
    exact pyRatio_eval _ _ 2 6 5 rfl rfl rfl (by norm_num)
  rw [h1, h2]
  norm_num

/-- Claim C8, amended.  The empty-input clause holds: whenever either
argument is the empty string, the similarity is 0.0 (in both argument
orders); the symmetry clause is dropped (see the counterexample). -/
theorem c8_similarity_empty_guard (to_pinyin : String → String) (a b : String)
    (h : a = "" ∨ b = "") :
    pinyin_similarity to_pinyin a b = 0 ∧ pinyin_similarity to_pinyin b a = 0 := by
  rcases h with h | h <;> subst h <;>
    constructor <;> simp [pinyin_similarity]

theorem c8_similarity_empty_guard_witness :
    ("" = "" ∨ "x" = "") ∧
      (pinyin_similarity to_pinyin_ascii "" "x" = 0 ∧
       pinyin_similarity to_pinyin_ascii "x" "" = 0) :=
  ⟨Or.inl rfl, c8_similarity_empty_guard to_pinyin_ascii "" "x" (Or.inl rfl)⟩

/-- Claim C9.  `extract_count("三户接入号") = 3` and `extract_count("拾户") = 10`
through the fixed Chinese-numeral table, and every text without an occurrence
of the "<digits-or-numeral>户" pattern (the hypothesis: the pattern matches at
no position of the space-stripped text) yields the default 1. -/
theorem c9_extract_count (text : String)
    (h : ∀ p ≤ (text.data.filter (fun c => c ≠ ' ')).length,
        matchNumHuAt (text.data.filter (fun c => c ≠ ' ')) p = none) :
    extract_number "三户接入号" = 3 ∧ extract_number "拾户" = 10 ∧
      extract_number text = 1 := by
  refine ⟨by decide, by decide, ?_⟩
  by_cases he : text = ""
  · simp [extract_number, he]
  · have hmem : ∀ p ∈ List.range ((text.data.filter (fun c => c ≠ ' ')).length + 1),
        matchNumHuAt (text.data.filter (fun c => c ≠ ' ')) p = none := by
      intro p hp
      exact h p (Nat.le_of_lt_succ (List.mem_range.mp hp))
    have hs : searchNumHu (text.data.filter (fun c => c ≠ ' ')) = none := by
      rw [searchNumHu, List.findSome?_eq_none_iff]
      exact hmem
    have hs2 : searchNumHuJrh (text.data.filter (fun c => c ≠ ' ')) = none := by
      rw [searchNumHuJrh, List.findSome?_eq_none_iff]
      intro p hp
      rw [hmem p hp]
    rw [extract_number, if_neg he, hs, hs2]

/-- Claim C2, counterexample.  As stated the claim is false: a line that is
neither blank nor a header can still be discarded into neither outcome,
namely when it contains no digit character (the `digit_pattern.search`
guard).  The non-blank, non-title line `复机测试` (which even carries a
configured inclusion keyword) leaves the processor state — counters and
exception list alike — completely unchanged. -/
theorem c2_digitless_line_unaccounted :
    pyStrip "复机测试" ≠ "" ∧
    is_title_line (pyStrip "复机测试") = false ∧
    processLine
        (fun cat => if cat = Category.current_month_recovery then
          some (CategoryConfig.mk ["复机"] []) else none)
        [("A支局", ["张三"])] to_pinyin_ascii
        (seedState [("A支局", ["张三"])]) "复机测试"
      = seedState [("A支局", ["张三"])] :=
  ⟨by decide, by decide, by decide⟩

/-- Claim C2, amended: every line that survives the blank, *digit-free* and
header guards is accounted for in exactly one of the two outcomes — its
counters aggregated (and the line marked processed, the exception list
untouched) or appended to the exception list (counters untouched) — never
both and never neither, provided the state holds a row for every roster
pair (as the seeded state does). -/
theorem c2_line_accounted (cfg : BusinessConfig) (roster : Roster)
    (to_pinyin : String → String) (st : ProcState) (rawLine : String)
    (hseed : ∀ bm ∈ rosterPairs roster, (mdLookup st.managerData bm).isSome = true)
    (h1 : (pyStrip rawLine).data.isEmpty = false)
    (h2 : (pyStrip rawLine).data.any pyDigit = true)
    (h3 : is_title_line (pyStrip rawLine) = false) :
    (aggregatedOutcome st (processLine cfg roster to_pinyin st rawLine) (pyStrip rawLine) ∧
      ¬ exceptionOutcome st (processLine cfg roster to_pinyin st rawLine) (pyStrip rawLine)) ∨
    (exceptionOutcome st (processLine cfg roster to_pinyin st rawLine) (pyStrip rawLine) ∧
      ¬ aggregatedOutcome st (processLine cfg roster to_pinyin st rawLine) (pyStrip rawLine)) := by
  rw [processLine_survives _ _ _ _ _ h1 h2 h3]
  unfold processResolved
  cases hex : extract_branch_and_manager to_pinyin roster (pyStrip rawLine) with
  | none =>
    right
    refine ⟨⟨?_, ?_, ?_⟩, ?_⟩
    · exact congrArg (· ++ [pyStrip rawLine]) (recordAllLines_exceptionRecords st _)
    · exact recordAllLines_managerData st _
    · exact recordAllLines_processedLines st _
    · rintro ⟨ha, -, -⟩
      exact append_singleton_ne _ _
        (((congrArg (· ++ [pyStrip rawLine])
          (recordAllLines_exceptionRecords st (pyStrip rawLine))).symm.trans ha))
  | some bmr =>
    obtain ⟨b, m, rem⟩ := bmr
    dsimp only
    have hsome : (mdLookup st.managerData (b, m)).isSome = true :=
      hseed (b, m) (mem_rosterPairs roster b m (extract_bm_mem _ _ _ _ _ _ hex))
    obtain ⟨r, hr⟩ := Option.isSome_iff_exists.mp hsome
    have hnone : (mdLookup (recordAllLines st (pyStrip rawLine)).managerData (b, m)).isNone
        = false := by
      rw [recordAllLines_managerData, hr]; rfl
    rw [hnone]
    simp only [Bool.false_eq_true, if_false]
    cases hcl : classify cfg (pyStrip rawLine) with
    | some c =>
      left
      refine ⟨⟨?_, ?_, ⟨b, m, c, ?_⟩⟩, ?_⟩
      · exact recordAllLines_exceptionRecords st _
      · exact congrArg (fun x => setAdd x (pyStrip rawLine))
          (recordAllLines_processedLines st _)
      · exact congrArg (fun x => mdUpdate x (b, m)
            (fun r => addToCategory r c
              (if c ∈ recoveryCategories then extract_number (pyStrip rawLine) else 1)))
          (recordAllLines_managerData st _)
      · rintro ⟨he, -, -⟩
        exact append_singleton_ne _ _
          (((recordAllLines_exceptionRecords st (pyStrip rawLine)).symm.trans he).symm)
    | none =>
      right
      refine ⟨⟨?_, ?_, ?_⟩, ?_⟩
      · exact congrArg (· ++ [pyStrip rawLine]) (recordAllLines_exceptionRecords st _)
      · exact recordAllLines_managerData st _
      · exact recordAllLines_processedLines st _
      · rintro ⟨ha, -, -⟩
        exact append_singleton_ne _ _
          (((congrArg (· ++ [pyStrip rawLine])
            (recordAllLines_exceptionRecords st (pyStrip rawLine))).symm.trans ha))

/-- Claim C2, witness: the surviving line `A支局张三复机2户` on a seeded
one-manager roster lands in exactly one outcome. -/
theorem c2_line_accounted_witness :
    (∀ bm ∈ rosterPairs [("A支局", ["张三"])],
        (mdLookup (seedState [("A支局", ["张三"])]).managerData bm).isSome = true) ∧
    ((pyStrip "A支局张三复机2户").data.isEmpty = false) ∧
    ((pyStrip "A支局张三复机2户").data.any pyDigit = true) ∧
    (is_title_line (pyStrip "A支局张三复机2户") = false) ∧
    ((aggregatedOutcome (seedState [("A支局", ["张三"])])
        (processLine (fun cat => if cat = Category.current_month_recovery then
            some (CategoryConfig.mk ["复机"] []) else none)
          [("A支局", ["张三"])] to_pinyin_ascii
          (seedState [("A支局", ["张三"])]) "A支局张三复机2户") (pyStrip "A支局张三复机2户") ∧
      ¬ exceptionOutcome (seedState [("A支局", ["张三"])])
        (processLine (fun cat => if cat = Category.current_month_recovery then
            some (CategoryConfig.mk ["复机"] []) else none)
          [("A支局", ["张三"])] to_pinyin_ascii
          (seedState [("A支局", ["张三"])]) "A支局张三复机2户") (pyStrip "A支局张三复机2户")) ∨
    (exceptionOutcome (seedState [("A支局", ["张三"])])
        (processLine (fun cat => if cat = Category.current_month_recovery then
            some (CategoryConfig.mk ["复机"] []) else none)
          [("A支局", ["张三"])] to_pinyin_ascii
          (seedState [("A支局", ["张三"])]) "A支局张三复机2户") (pyStrip "A支局张三复机2户") ∧
      ¬ aggregatedOutcome (seedState [("A支局", ["张三"])])
        (processLine (fun cat => if cat = Category.current_month_recovery then
            some (CategoryConfig.mk ["复机"] []) else none)
          [("A支局", ["张三"])] to_pinyin_ascii
          (seedState [("A支局", ["张三"])]) "A支局张三复机2户") (pyStrip "A支局张三复机2户"))) :=
  ⟨by decide, by decide, by decide, by decide,
    c2_line_accounted _ _ _ _ _ (by decide) (by decide) (by decide) (by decide)⟩

/-- Claim C3, counterexample.  A raw line text that fails resolution twice
is recorded twice: with an empty roster, the input consisting of the same
failing line `9支局王五1户` twice yields a final exception list in which it
occurs with multiplicity 2, not 1. -/
theorem c3_duplicate_exception :
    ((runReport (fun _ => none) [] to_pinyin_ascii
        ["9支局王五1户", "9支局王五1户"]).2).count "9支局王五1户" = 2 := by decide

/-- Claim C3, amended: deduplication happens only in the
`_process_unmatched_records` post-pass — that pass appends a line only when
absent, so it never raises an existing multiplicity and creates at most one
copy; lines failing in the main per-line pass, however, are appended once
per failing occurrence and may repeat. -/
theorem c3_no_duplicate_from_postpass (st : ProcState) (l : String) :
    ((process_unmatched_records st).exceptionRecords.count l
        = st.exceptionRecords.count l) ∨
    (st.exceptionRecords.count l = 0 ∧
      (process_unmatched_records st).exceptionRecords.count l = 1) :=
  unmatched_fold_count st.allLines st l

/-- Claim C5.  Every roster pair appears exactly once as a data row of the
final report no matter what the input lines are; with empty input every
report row (entity rows, 小计 rows and the 总计 row) is all zeros, and there
is exactly one 总计 row and exactly one 小计 row per branch that has an
entity. -/
theorem c5_roster_seeding (cfg : BusinessConfig) (roster : Roster)
    (to_pinyin : String → String) (lines : List String)
    (hnd : (rosterPairs roster).Nodup)
    (hm : ∀ p ∈ rosterPairs roster, p.2 ≠ "小计")
    (hbt : ∀ p ∈ rosterPairs roster, p.1 ≠ "总计") :
    (∀ p ∈ rosterPairs roster,
      ((runReport cfg roster to_pinyin lines).1.filter
        (fun r => r.branch == p.1 && r.manager == p.2)).length = 1) ∧
    (∀ r ∈ (runReport cfg roster to_pinyin []).1,
      (∀ c : Category, r.get c = 0) ∧ r.total = 0) ∧
    (((runReport cfg roster to_pinyin []).1.filter
        (fun r => r.branch == "总计")).length = 1) ∧
    (∀ p ∈ rosterPairs roster,
      ((runReport cfg roster to_pinyin []).1.filter
        (fun r => r.branch == p.1 && r.manager == "小计")).length = 1) := by
  have key_fact : ∀ ls : List String,
      (process_all_data cfg roster to_pinyin (seedState roster) ls).managerData.map
          (fun kv => kv.1)
        = rosterPairs roster := by
    intro ls
    rw [process_all_data_keys]
    exact seed_keys roster hnd
  have coh_fact : ∀ ls : List String,
      mdCoherent (process_all_data cfg roster to_pinyin (seedState roster) ls).managerData :=
    fun ls => process_all_data_coherent _ _ _ _ _ (seed_coherent roster)
  have rep_fact : ∀ ls : List String,
      (runReport cfg roster to_pinyin ls).1
        = buildReport (process_all_data cfg roster to_pinyin
            (seedState roster) ls).managerData := by
    intro ls
    unfold runReport
    exact generate_report_fst _
  have hbranch_pairs : ∀ (ls : List String) (b' : String),
      b' ∈ branchKeys (process_all_data cfg roster to_pinyin
          (seedState roster) ls).managerData →
      ∃ p ∈ rosterPairs roster, p.1 = b' := by
    intro ls b' hb'
    rw [mem_branchKeys] at hb'
    rw [show (process_all_data cfg roster to_pinyin
          (seedState roster) ls).managerData.map (fun kv => kv.1.1)
        = ((process_all_data cfg roster to_pinyin
            (seedState roster) ls).managerData.map (fun kv => kv.1)).map (fun k => k.1)
        from by rw [List.map_map]; rfl, key_fact ls] at hb'
    exact List.mem_map.mp hb'
  have hpair_branch : ∀ (ls : List String) (p : String × String),
      p ∈ rosterPairs roster →
      p.1 ∈ branchKeys (process_all_data cfg roster to_pinyin
          (seedState roster) ls).managerData := by
    intro ls p hp
    rw [mem_branchKeys]
    rw [show (process_all_data cfg roster to_pinyin
          (seedState roster) ls).managerData.map (fun kv => kv.1.1)
        = ((process_all_data cfg roster to_pinyin
            (seedState roster) ls).managerData.map (fun kv => kv.1)).map (fun k => k.1)
        from by rw [List.map_map]; rfl, key_fact ls]
    exact List.mem_map.mpr ⟨p, hp, rfl⟩
  refine ⟨?_, ?_, ?_, ?_⟩
  · -- exactly one data row per roster pair, on arbitrary input
    intro p hp
    obtain ⟨b, m⟩ := p
    rw [rep_fact lines, buildReport_count]
    have hcoh := coh_fact lines
    have hk := key_fact lines
    have hmm : (("小计" : String) == m) = false := by
      simpa [beq_eq_false_iff_ne] using (Ne.symm (hm (b, m) hp))
    have hgb : (("总计" : String) == b) = false := by
      simpa [beq_eq_false_iff_ne] using (Ne.symm (hbt (b, m) hp))
    have hterm : ∀ b' ∈ branchKeys (process_all_data cfg roster to_pinyin
          (seedState roster) lines).managerData,
        (fun b' => ((groupRows (branchGroups (process_all_data cfg roster to_pinyin
              (seedState roster) lines).managerData) b').filter
            (fun r => r.branch == b && r.manager == m)).length
          + (if (subtotalRow b' (groupRows (branchGroups (process_all_data cfg roster
                to_pinyin (seedState roster) lines).managerData) b')).branch == b
                && (subtotalRow b' (groupRows (branchGroups (process_all_data cfg roster
                  to_pinyin (seedState roster) lines).managerData) b')).manager == m
              then 1 else 0)) b'
          = if b' = b then 1 else 0 := by
      intro b' hb'
      dsimp only
      rw [if_neg (by simp [subtotalRow, hmm])]
      rw [← List.countP_eq_length_filter, groupRows_eq _ _ hb', List.countP_map,
        List.countP_filter]
      have hcg : ∀ kv ∈ (process_all_data cfg roster to_pinyin
          (seedState roster) lines).managerData,
          ((((fun r => r.branch == b && r.manager == m) ∘ (fun kv => kv.2)) kv
            && (kv.1.1 == b'))
          = ((kv.1.1 == b && kv.1.2 == m) && (kv.1.1 == b'))) := by
        intro kv hkv
        have h1 := (hcoh kv hkv).1
        have h2 := (hcoh kv hkv).2
        show ((kv.2.branch == b && kv.2.manager == m) && (kv.1.1 == b'))
            = ((kv.1.1 == b && kv.1.2 == m) && (kv.1.1 == b'))
        rw [h1, h2]
      rw [List.countP_congr (fun x hx => by rw [hcg x hx])]
      by_cases hbe : b' = b
      · subst hbe
        rw [if_pos rfl]
        have hcg2 : ∀ kv ∈ (process_all_data cfg roster to_pinyin
            (seedState roster) lines).managerData,
            (((kv.1.1 == b' && kv.1.2 == m) && (kv.1.1 == b'))
              = ((fun k : String × String => k.1 == b' && k.2 == m)
                  ∘ (fun kv : (String × String) × Row => kv.1)) kv) := by
          intro kv _
          show ((kv.1.1 == b' && kv.1.2 == m) && (kv.1.1 == b'))
              = (kv.1.1 == b' && kv.1.2 == m)
          cases hx : (kv.1.1 == b') <;> cases hy : (kv.1.2 == m) <;> rfl
        rw [List.countP_congr (fun x hx => by rw [hcg2 x hx]),
          ← List.countP_map, hk]
        simp only [add_zero]
        exact countP_pair_of_nodup _ _ _ hnd hp
      · rw [if_neg hbe]
        have hz : (process_all_data cfg roster to_pinyin
            (seedState roster) lines).managerData.countP
            (fun kv => (kv.1.1 == b && kv.1.2 == m) && (kv.1.1 == b')) = 0 := by
          rw [List.countP_eq_zero]
          intro kv hkv hc
          rw [Bool.and_eq_true, Bool.and_eq_true] at hc
          have e1 : kv.1.1 = b := by simpa using hc.1.1
          have e2 : kv.1.1 = b' := by simpa using hc.2
          exact hbe (e2.symm.trans e1)
        rw [hz]
    rw [List.map_congr_left hterm]
    rw [sum_if_single _ b 1 _ (branchKeys_nodup _) (hpair_branch lines (b, m) hp)
      (fun b' _ => rfl)]
    rw [if_neg (by simp [grandRow, hgb])]
  · -- all-zero rows on empty input
    intro r hr
    rw [rep_fact []] at hr
    have hseedmd : (process_all_data cfg roster to_pinyin (seedState roster) []).managerData
        = seedManagerData roster := rfl
    rw [hseedmd] at hr
    have hzero_vals : ∀ kv ∈ seedManagerData roster,
        (∀ c : Category, kv.2.get c = 0) ∧ kv.2.total = 0 := by
      intro kv hkv
      obtain ⟨p, rfl⟩ := seedManagerData_mem roster kv hkv
      exact ⟨fun c => zeroRow_get _ _ c, rfl⟩
    rcases buildReport_mem _ r hr with ⟨kv, hkv, rfl⟩ | ⟨b', hb', rfl⟩ | rfl
    · exact hzero_vals kv hkv
    · constructor
      · intro c
        show colVal (some c) (subtotalRow b' _) = 0
        rw [subtotalRow_colVal]
        apply List.sum_eq_zero
        intro x hx
        obtain ⟨r₀, hr₀, rfl⟩ := List.mem_map.mp hx
        obtain ⟨kv, hkv, rfl, -⟩ := groupRows_facts _ b' hb' r₀ hr₀
        exact (hzero_vals kv hkv).1 c
      · show colVal none (subtotalRow b' _) = 0
        rw [subtotalRow_colVal]
        apply List.sum_eq_zero
        intro x hx
        obtain ⟨r₀, hr₀, rfl⟩ := List.mem_map.mp hx
        obtain ⟨kv, hkv, rfl, -⟩ := groupRows_facts _ b' hb' r₀ hr₀
        exact (hzero_vals kv hkv).2
    · constructor
      · intro c
        show colVal (some c) (grandRow _) = 0
        rw [grandRow_colVal]
        apply List.sum_eq_zero
        intro x hx
        obtain ⟨r₀, hr₀, rfl⟩ := List.mem_map.mp hx
        obtain ⟨kv, hkv, rfl⟩ := List.mem_map.mp hr₀
        exact (hzero_vals kv hkv).1 c
      · show colVal none (grandRow _) = 0
        rw [grandRow_colVal]
        apply List.sum_eq_zero
        intro x hx
        obtain ⟨r₀, hr₀, rfl⟩ := List.mem_map.mp hx
        obtain ⟨kv, hkv, rfl⟩ := List.mem_map.mp hr₀
        exact (hzero_vals kv hkv).2
  · -- exactly one 总计 row
    rw [rep_fact [], buildReport_count]
    have hcoh := coh_fact []
    have hz : ((branchKeys (process_all_data cfg roster to_pinyin
          (seedState roster) []).managerData).map (fun b' =>
        ((groupRows (branchGroups (process_all_data cfg roster to_pinyin
            (seedState roster) []).managerData) b').filter
          (fun r => r.branch == "总计")).length
        + (if (subtotalRow b' (groupRows (branchGroups (process_all_data cfg roster
              to_pinyin (seedState roster) []).managerData) b')).branch == "总计"
            then 1 else 0))).sum = 0 := by
      apply List.sum_eq_zero
      intro x hx
      obtain ⟨b', hb', rfl⟩ := List.mem_map.mp hx
      obtain ⟨p, hp, hpb⟩ := hbranch_pairs [] b' hb'
      have hbne : (b' == "总计") = false := by
        simpa [beq_eq_false_iff_ne] using (hpb ▸ hbt p hp)
      have hgz : (groupRows (branchGroups (process_all_data cfg roster to_pinyin
          (seedState roster) []).managerData) b').filter
          (fun r => r.branch == "总计") = [] := by
        rw [List.filter_eq_nil_iff]
        intro r hr hc
        obtain ⟨kv, hkv, rfl, hk1⟩ := groupRows_facts _ b' hb' r hr
        rw [show kv.2.branch = b' from (hcoh kv hkv).1.trans hk1] at hc
        simp [hbne] at hc
      rw [hgz]
      simp [subtotalRow, hbne]
    rw [hz]
    rw [if_pos (by simp [grandRow])]
  · -- exactly one 小计 row per branch with an entity
    intro p hp
    obtain ⟨b, m⟩ := p
    rw [rep_fact [], buildReport_count]
    have hcoh := coh_fact []
    have hgb : (("总计" : String) == b) = false := by
      simpa [beq_eq_false_iff_ne] using (Ne.symm (hbt (b, m) hp))
    have hterm : ∀ b' ∈ branchKeys (process_all_data cfg roster to_pinyin
          (seedState roster) []).managerData,
        (fun b' => ((groupRows (branchGroups (process_all_data cfg roster to_pinyin
              (seedState roster) []).managerData) b').filter
            (fun r => r.branch == b && r.manager == "小计")).length
          + (if (subtotalRow b' (groupRows (branchGroups (process_all_data cfg roster
                to_pinyin (seedState roster) []).managerData) b')).branch == b
                && (subtotalRow b' (groupRows (branchGroups (process_all_data cfg roster
                  to_pinyin (seedState roster) []).managerData) b')).manager == "小计"
              then 1 else 0)) b'
          = if b' = b then 1 else 0 := by
      intro b' hb'
      dsimp only
      have hgz : (groupRows (branchGroups (process_all_data cfg roster to_pinyin
          (seedState roster) []).managerData) b').filter
          (fun r => r.branch == b && r.manager == "小计") = [] := by
        rw [List.filter_eq_nil_iff]
        intro r hr hc
        obtain ⟨kv, hkv, rfl, hk1⟩ := groupRows_facts _ b' hb' r hr
        have hr2 : kv.2.manager ≠ "小计" := (hcoh kv hkv).2.symm ▸ hm (kv.1) (by
          rw [← key_fact []]
          exact List.mem_map.mpr ⟨kv, hkv, rfl⟩)
        rw [Bool.and_eq_true] at hc
        exact hr2 (by simpa using hc.2)
      rw [hgz]
      by_cases hbe : b' = b
      · subst hbe
        simp [subtotalRow]
      · simp [subtotalRow, hbe]
    rw [List.map_congr_left hterm]
    rw [sum_if_single _ b 1 _ (branchKeys_nodup _) (hpair_branch [] (b, m) hp)
      (fun b' _ => rfl)]
    rw [if_neg (by simp [grandRow, hgb])]

/-- Claim C5, witness: a one-branch roster with two managers, arbitrary
(empty) input. -/
theorem c5_roster_seeding_witness :
    (rosterPairs [("A支局", ["张三", "李四"])]).Nodup ∧
    (∀ p ∈ rosterPairs [("A支局", ["张三", "李四"])], p.2 ≠ "小计") ∧
    (∀ p ∈ rosterPairs [("A支局", ["张三", "李四"])], p.1 ≠ "总计") ∧
    ((∀ p ∈ rosterPairs [("A支局", ["张三", "李四"])],
      ((runReport (fun _ => none) [("A支局", ["张三", "李四"])] to_pinyin_ascii []).1.filter
        (fun r => r.branch == p.1 && r.manager == p.2)).length = 1) ∧
    (∀ r ∈ (runReport (fun _ => none) [("A支局", ["张三", "李四"])] to_pinyin_ascii []).1,
      (∀ c : Category, r.get c = 0) ∧ r.total = 0) ∧
    (((runReport (fun _ => none) [("A支局", ["张三", "李四"])] to_pinyin_ascii []).1.filter
        (fun r => r.branch == "总计")).length = 1) ∧
    (∀ p ∈ rosterPairs [("A支局", ["张三", "李四"])],
      ((runReport (fun _ => none) [("A支局", ["张三", "李四"])] to_pinyin_ascii []).1.filter
        (fun r => r.branch == p.1 && r.manager == "小计")).length = 1)) :=
  ⟨by decide, by decide, by decide,
    c5_roster_seeding (fun _ => none) [("A支局", ["张三", "李四"])] to_pinyin_ascii []
      (by decide) (by decide) (by decide)⟩

/-- Claim C6.  The report is, in order: for each branch — its entity rows
sorted by manager name, then one 小计 row for that branch — with the
branches sorted lexicographically (and no branch repeated), terminated by a
single final 总计 row. -/
theorem c6_report_shape (st : ProcState)
    (hcoh : mdCoherent st.managerData)
    (hm : ∀ kv ∈ st.managerData, kv.1.2 ≠ "小计")
    (hb : ∀ kv ∈ st.managerData, kv.1.1 ≠ "总计") :
    ∃ (bs : List String) (rows : String → List Row) (g : Row),
      (generate_report st).1
        = (bs.flatMap (fun b => rows b
            ++ [subtotalRow b (groupRows (branchGroups st.managerData) b)])) ++ [g]
      ∧ List.Sorted strLeP bs
      ∧ bs.Nodup
      ∧ g.branch = "总计" ∧ g.manager = ""
      ∧ (∀ b ∈ bs, b ≠ "总计"
          ∧ List.Sorted rowLeP (rows b)
          ∧ (subtotalRow b (groupRows (branchGroups st.managerData) b)).branch = b
          ∧ (subtotalRow b (groupRows (branchGroups st.managerData) b)).manager = "小计"
          ∧ ∀ r ∈ rows b, r.branch = b ∧ r.manager ≠ "小计") := by
  refine ⟨(branchKeys st.managerData).insertionSort strLeP,
    fun b => (groupRows (branchGroups st.managerData) b).insertionSort rowLeP,
    grandRow (st.managerData.map (fun kv => kv.2)), ?_, ?_, ?_, rfl, rfl, ?_⟩
  · rw [generate_report_fst]
    unfold buildReport
    rw [branchGroups_keys]
  · exact List.sorted_insertionSort strLeP _
  · exact ((List.perm_insertionSort strLeP _).nodup_iff).mpr (branchKeys_nodup _)
  · intro b hbs
    have hbk : b ∈ branchKeys st.managerData := (List.mem_insertionSort _).mp hbs
    have hbp : b ≠ "总计" := by
      obtain ⟨kv, hkv, rfl⟩ := List.mem_map.mp ((mem_branchKeys _ b).mp hbk)
      exact hb kv hkv
    refine ⟨hbp, List.sorted_insertionSort rowLeP _, rfl, rfl, ?_⟩
    intro r hr
    have hg : r ∈ groupRows (branchGroups st.managerData) b := (List.mem_insertionSort _).mp hr
    obtain ⟨kv, hkv, rfl, hk1⟩ := groupRows_facts _ b hbk r hg
    exact ⟨(hcoh kv hkv).1.trans hk1, by rw [(hcoh kv hkv).2]; exact hm kv hkv⟩

/-- Claim C6, witness: a two-branch roster given out of order; the report
shape holds on the seeded state. -/
theorem c6_report_shape_witness :
    mdCoherent (seedState [("B支局", ["王五"]), ("A支局", ["张三", "李四"])]).managerData ∧
    (∀ kv ∈ (seedState [("B支局", ["王五"]), ("A支局", ["张三", "李四"])]).managerData,
      kv.1.2 ≠ "小计") ∧
    (∀ kv ∈ (seedState [("B支局", ["王五"]), ("A支局", ["张三", "李四"])]).managerData,
      kv.1.1 ≠ "总计") ∧
    (∃ (bs : List String) (rows : String → List Row) (g : Row),
      (generate_report (seedState [("B支局", ["王五"]), ("A支局", ["张三", "李四"])])).1
        = (bs.flatMap (fun b => rows b
            ++ [subtotalRow b (groupRows (branchGroups
                (seedState [("B支局", ["王五"]), ("A支局", ["张三", "李四"])]).managerData) b)]))
          ++ [g]
      ∧ List.Sorted strLeP bs
      ∧ bs.Nodup
      ∧ g.branch = "总计" ∧ g.manager = ""
      ∧ (∀ b ∈ bs, b ≠ "总计"
          ∧ List.Sorted rowLeP (rows b)
          ∧ (subtotalRow b (groupRows (branchGroups
              (seedState [("B支局", ["王五"]), ("A支局", ["张三", "李四"])]).managerData) b)).branch
              = b
          ∧ (subtotalRow b (groupRows (branchGroups
              (seedState [("B支局", ["王五"]), ("A支局", ["张三", "李四"])]).managerData) b)).manager
              = "小计"
          ∧ ∀ r ∈ rows b, r.branch = b ∧ r.manager ≠ "小计")) :=
  ⟨by unfold mdCoherent; decide, by decide, by decide,
    c6_report_shape (seedState [("B支局", ["王五"]), ("A支局", ["张三", "李四"])])
      (by unfold mdCoherent; decide) (by decide) (by decide)⟩

/-- Claim C7.  In the emitted report, for every branch and every column
(each category and the 合计 column), the branch's 小计 row value equals the
sum of that column over the branch's entity rows, and the 总计 row value
equals the sum of that column over all 小计 rows.  The label hypotheses
rule out a roster that itself uses the reserved labels 小计/总计. -/
theorem c7_subtotal_and_grand (st : ProcState)
    (hcoh : mdCoherent st.managerData)
    (hm : ∀ kv ∈ st.managerData, kv.1.2 ≠ "小计")
    (hb : ∀ kv ∈ st.managerData, kv.1.1 ≠ "总计")
    (b : String) (hbk : b ∈ branchKeys st.managerData) (col : Option Category) :
    ((((generate_report st).1.filter
        (fun r => r.branch == b && r.manager == "小计")).map (colVal col)).sum
      = (((generate_report st).1.filter
          (fun r => r.branch == b && !(r.manager == "小计"))).map (colVal col)).sum)
    ∧ ((((generate_report st).1.filter
        (fun r => r.branch == "总计")).map (colVal col)).sum
      = (((generate_report st).1.filter
          (fun r => r.manager == "小计")).map (colVal col)).sum) := by
  rw [generate_report_fst]
  have hrowfacts : ∀ b' ∈ branchKeys st.managerData,
      ∀ r ∈ groupRows (branchGroups st.managerData) b',
      r.branch = b' ∧ (r.manager == "小计") = false := by
    intro b' hb' r hr
    obtain ⟨kv, hkv, rfl, hk1⟩ := groupRows_facts st.managerData b' hb' r hr
    refine ⟨by rw [(hcoh kv hkv).1, hk1], ?_⟩
    have hne := hm kv hkv
    rw [(hcoh kv hkv).2]
    simpa [beq_eq_false_iff_ne] using hne
  have hkeys : ∀ b' ∈ branchKeys st.managerData, b' ≠ "总计" := by
    intro b' hb'
    obtain ⟨kv, hkv, rfl⟩ := List.mem_map.mp ((mem_branchKeys st.managerData b').mp hb')
    exact hb kv hkv
  have hbne : ("总计" == b) = false := by
    simpa [beq_eq_false_iff_ne] using (Ne.symm (hkeys b hbk))
  constructor
  · rw [buildReport_filter_sum, buildReport_filter_sum]
    have hL : ((branchKeys st.managerData).map (fun b' =>
          (((groupRows (branchGroups st.managerData) b').filter
              (fun r => r.branch == b && r.manager == "小计")).map (colVal col)).sum
          + (if (subtotalRow b' (groupRows (branchGroups st.managerData) b')).branch == b
                && (subtotalRow b' (groupRows (branchGroups st.managerData) b')).manager == "小计"
              then colVal col (subtotalRow b' (groupRows (branchGroups st.managerData) b'))
              else 0))).sum
        = colVal col (subtotalRow b (groupRows (branchGroups st.managerData) b)) := by
      apply sum_if_single _ _ _ _ (branchKeys_nodup st.managerData) hbk
      intro b' hb'
      dsimp only
      have hgz : (groupRows (branchGroups st.managerData) b').filter
          (fun r => r.branch == b && r.manager == "小计") = [] := by
        rw [List.filter_eq_nil_iff]
        intro r hr hc
        simp [(hrowfacts b' hb' r hr).2] at hc
      rw [hgz]
      by_cases hbe : b' = b
      · subst hbe; simp [subtotalRow]
      · simp [subtotalRow, hbe]
    have hR : ((branchKeys st.managerData).map (fun b' =>
          (((groupRows (branchGroups st.managerData) b').filter
              (fun r => r.branch == b && !(r.manager == "小计"))).map (colVal col)).sum
          + (if (subtotalRow b' (groupRows (branchGroups st.managerData) b')).branch == b
                && !((subtotalRow b' (groupRows (branchGroups st.managerData) b')).manager == "小计")
              then colVal col (subtotalRow b' (groupRows (branchGroups st.managerData) b'))
              else 0))).sum
        = ((groupRows (branchGroups st.managerData) b).map (colVal col)).sum := by
      apply sum_if_single _ _ _ _ (branchKeys_nodup st.managerData) hbk
      intro b' hb'
      dsimp only
      by_cases hbe : b' = b
      · subst hbe
        rw [if_pos rfl]
        have hself : (groupRows (branchGroups st.managerData) b').filter
            (fun r => r.branch == b' && !(r.manager == "小计"))
            = groupRows (branchGroups st.managerData) b' := by
          rw [List.filter_eq_self]
          intro r hr
          simp [(hrowfacts b' hb' r hr).1, (hrowfacts b' hb' r hr).2]
        rw [hself]
        simp [subtotalRow]
      · have hgz : (groupRows (branchGroups st.managerData) b').filter
            (fun r => r.branch == b && !(r.manager == "小计")) = [] := by
          rw [List.filter_eq_nil_iff]
          intro r hr hc
          simp [(hrowfacts b' hb' r hr).1, hbe] at hc
        rw [hgz]
        simp [subtotalRow, hbe]
    rw [hL, hR, subtotalRow_colVal]
    simp [grandRow, hbne]
  · rw [buildReport_filter_sum, buildReport_filter_sum]
    have hLz : ((branchKeys st.managerData).map (fun b' =>
          (((groupRows (branchGroups st.managerData) b').filter
              (fun r => r.branch == "总计")).map (colVal col)).sum
          + (if (subtotalRow b' (groupRows (branchGroups st.managerData) b')).branch == "总计"
              then colVal col (subtotalRow b' (groupRows (branchGroups st.managerData) b'))
              else 0))).sum = 0 := by
      apply List.sum_eq_zero
      intro x hx
      obtain ⟨b', hb', rfl⟩ := List.mem_map.mp hx
      have hgz : (groupRows (branchGroups st.managerData) b').filter
          (fun r => r.branch == "总计") = [] := by
        rw [List.filter_eq_nil_iff]
        intro r hr hc
        simp [(hrowfacts b' hb' r hr).1, hkeys b' hb'] at hc
      rw [hgz]
      simp [subtotalRow, hkeys b' hb']
    have hRe : ((branchKeys st.managerData).map (fun b' =>
          (((groupRows (branchGroups st.managerData) b').filter
              (fun r => r.manager == "小计")).map (colVal col)).sum
          + (if (subtotalRow b' (groupRows (branchGroups st.managerData) b')).manager == "小计"
              then colVal col (subtotalRow b' (groupRows (branchGroups st.managerData) b'))
              else 0))).sum
        = (st.managerData.map (fun kv => colVal col kv.2)).sum := by
      have hcongr : ∀ b' ∈ branchKeys st.managerData,
          (fun b' =>
            (((groupRows (branchGroups st.managerData) b').filter
                (fun r => r.manager == "小计")).map (colVal col)).sum
            + (if (subtotalRow b' (groupRows (branchGroups st.managerData) b')).manager == "小计"
                then colVal col (subtotalRow b' (groupRows (branchGroups st.managerData) b'))
                else 0)) b'
          = (fun b' =>
              ((st.managerData.filter (fun kv => kv.1.1 == b')).map
                (fun kv => colVal col kv.2)).sum) b' := by
        intro b' hb'
        dsimp only
        have hgz : (groupRows (branchGroups st.managerData) b').filter
            (fun r => r.manager == "小计") = [] := by
          rw [List.filter_eq_nil_iff]
          intro r hr hc
          simp [(hrowfacts b' hb' r hr).2] at hc
        rw [hgz]
        simp only [List.map_nil, List.sum_nil, if_pos]
        rw [if_pos (by simp [subtotalRow])]
        rw [subtotalRow_colVal, groupRows_eq st.managerData b' hb', List.map_map]
        simp [Function.comp_def]
      rw [List.map_congr_left hcongr]
      exact sum_partition st.managerData (fun kv => colVal col kv.2)
    rw [hLz, hRe]
    rw [if_pos (by simp [grandRow]), grandRow_colVal, List.map_map]
    have hgm : ((("" : String) == "小计")) = false := by decide
    simp [grandRow, hgm, Function.comp_def]

/-- Claim C7, witness: on the seeded two-manager roster the subtotal and
grand-total identities hold for the lock-in column. -/
theorem c7_subtotal_and_grand_witness :
    mdCoherent (seedState [("A支局", ["张三", "李四"])]).managerData ∧
    (∀ kv ∈ (seedState [("A支局", ["张三", "李四"])]).managerData, kv.1.2 ≠ "小计") ∧
    (∀ kv ∈ (seedState [("A支局", ["张三", "李四"])]).managerData, kv.1.1 ≠ "总计") ∧
    "A支局" ∈ branchKeys (seedState [("A支局", ["张三", "李四"])]).managerData ∧
    ((((generate_report (seedState [("A支局", ["张三", "李四"])])).1.filter
        (fun r => r.branch == "A支局" && r.manager == "小计")).map
          (colVal (some Category.lock_storage))).sum
      = (((generate_report (seedState [("A支局", ["张三", "李四"])])).1.filter
          (fun r => r.branch == "A支局" && !(r.manager == "小计"))).map
            (colVal (some Category.lock_storage))).sum)
    ∧ ((((generate_report (seedState [("A支局", ["张三", "李四"])])).1.filter
        (fun r => r.branch == "总计")).map (colVal (some Category.lock_storage))).sum
      = (((generate_report (seedState [("A支局", ["张三", "李四"])])).1.filter
          (fun r => r.manager == "小计")).map (colVal (some Category.lock_storage))).sum) :=
  ⟨by unfold mdCoherent; decide, by decide, by decide, by decide,
    c7_subtotal_and_grand (seedState [("A支局", ["张三", "李四"])])
      (by unfold mdCoherent; decide) (by decide) (by decide)
      "A支局" (by decide) (some Category.lock_storage)⟩

/-- Claim C4.  Exclusion keywords take precedence: whenever any exclusion
keyword of a configured category occurs in the line, the classifier never
selects that category, even if an inclusion keyword also occurs. -/
theorem c4_exclusion_precedence (cfg : BusinessConfig) (line : String) (c : Category)
    (cc : CategoryConfig) (kw : String)
    (hc : cfg c = some cc) (hkw : kw ∈ cc.exclude_keywords) (hsub : pyIn kw line = true) :
    classify cfg line ≠ some c := by
  intro h
  have hp : categoryMatches cfg line c = true := List.find?_some h
  unfold categoryMatches at hp
  rw [hc] at hp
  have hex : should_exclude line cc.exclude_keywords = true :=
    List.any_eq_true.mpr ⟨kw, hkw, hsub⟩
  have hne : cc.exclude_keywords.isEmpty = false := by
    have := List.ne_nil_of_mem hkw
    simpa [List.isEmpty_iff] using this
  simp [hne, hex] at hp

/-- Claim C4, witness: with inclusion keyword 复机 and exclusion keyword
高危复机, the line `张三 高危复机 1户` is never attributed to that category,
although 复机 is textually present. -/
theorem c4_exclusion_precedence_witness :
    ((fun cat => if cat = Category.current_month_recovery then
        some (CategoryConfig.mk ["复机"] ["高危复机"]) else none) Category.current_month_recovery
      = some (CategoryConfig.mk ["复机"] ["高危复机"])) ∧
    "高危复机" ∈ (CategoryConfig.mk ["复机"] ["高危复机"]).exclude_keywords ∧
    pyIn "高危复机" "张三 高危复机 1户" = true ∧
    pyIn "复机" "张三 高危复机 1户" = true ∧
    classify (fun cat => if cat = Category.current_month_recovery then
        some (CategoryConfig.mk ["复机"] ["高危复机"]) else none) "张三 高危复机 1户" ≠
      some Category.current_month_recovery :=
  ⟨rfl, by decide, by decide, by decide,
    c4_exclusion_precedence _ _ _ _ "高危复机" rfl (by decide) (by decide)⟩

/-- Claim C10.  When a surviving line resolves to `(b, m)` and classifies
into category `c`, the counter of `(b, m)` at `c` grows by the extracted
count exactly when `c` is one of the three recovery categories and by the
constant 1 otherwise; in particular for 锁存, 拆机挽留 and 降档挽留 the
increment is exactly 1 no matter what `N户` count the line carries. -/
theorem c10_fixed_increment (cfg : BusinessConfig) (roster : Roster)
    (to_pinyin : String → String) (st : ProcState) (rawLine b m rem : String)
    (c : Category) (r : Row)
    (h1 : (pyStrip rawLine).data.isEmpty = false)
    (h2 : (pyStrip rawLine).data.any pyDigit = true)
    (h3 : is_title_line (pyStrip rawLine) = false)
    (hex : extract_branch_and_manager to_pinyin roster (pyStrip rawLine) = some (b, m, rem))
    (hlk : mdLookup st.managerData (b, m) = some r)
    (hcl : classify cfg (pyStrip rawLine) = some c) :
    mdLookup (processLine cfg roster to_pinyin st rawLine).managerData (b, m) =
      some (addToCategory r c
        (if c ∈ recoveryCategories then extract_number (pyStrip rawLine) else 1)) ∧
    ((c = .lock_storage ∨ c = .dismantle_retention ∨ c = .downgrade_retention) →
      (if c ∈ recoveryCategories then extract_number (pyStrip rawLine) else 1) = 1) := by
  constructor
  · rw [processLine_survives _ _ _ _ _ h1 h2 h3]
    unfold processResolved
    rw [hex]
    simp only [recordAllLines_managerData, hlk, hcl, mdLookup_mdUpdate,
      Option.isNone_some, Bool.false_eq_true, if_false]
    rfl
  · rintro (hc | hc | hc) <;> subst hc <;>
      rw [if_neg (by decide)]

/-- Claim C10, witness: the line `A支局张三锁存3户` (which carries the count
3户) increments the lock-in counter by exactly 1. -/
theorem c10_fixed_increment_witness :
    ((pyStrip "A支局张三锁存3户").data.isEmpty = false) ∧
    ((pyStrip "A支局张三锁存3户").data.any pyDigit = true) ∧
    (is_title_line (pyStrip "A支局张三锁存3户") = false) ∧
    (extract_branch_and_manager to_pinyin_ascii [("A支局", ["张三"])] (pyStrip "A支局张三锁存3户")
      = some ("A支局", "张三", "张三锁存3户")) ∧
    (mdLookup (seedState [("A支局", ["张三"])]).managerData ("A支局", "张三")
      = some (zeroRow "A支局" "张三")) ∧
    (classify (fun cat => if cat = Category.lock_storage then
        some (CategoryConfig.mk ["锁存"] []) else none) (pyStrip "A支局张三锁存3户")
      = some Category.lock_storage) ∧
    (mdLookup (processLine (fun cat => if cat = Category.lock_storage then
          some (CategoryConfig.mk ["锁存"] []) else none) [("A支局", ["张三"])] to_pinyin_ascii
          (seedState [("A支局", ["张三"])]) "A支局张三锁存3户").managerData ("A支局", "张三") =
      some (addToCategory (zeroRow "A支局" "张三") Category.lock_storage
        (if Category.lock_storage ∈ recoveryCategories
          then extract_number (pyStrip "A支局张三锁存3户") else 1))) ∧
    ((if Category.lock_storage ∈ recoveryCategories
        then extract_number (pyStrip "A支局张三锁存3户") else 1) = 1) :=
  ⟨by decide, by decide, by decide, by decide, by decide, by decide,
    (c10_fixed_increment (fun cat => if cat = Category.lock_storage then
          some (CategoryConfig.mk ["锁存"] []) else none) [("A支局", ["张三"])] to_pinyin_ascii
          (seedState [("A支局", ["张三"])]) "A支局张三锁存3户" "A支局" "张三" "张三锁存3户"
          Category.lock_storage (zeroRow "A支局" "张三")
      (by decide) (by decide) (by decide) (by decide) (by decide) (by decide)).1,
    (c10_fixed_increment (fun cat => if cat = Category.lock_storage then
          some (CategoryConfig.mk ["锁存"] []) else none) [("A支局", ["张三"])] to_pinyin_ascii
          (seedState [("A支局", ["张三"])]) "A支局张三锁存3户" "A支局" "张三" "张三锁存3户"
          Category.lock_storage (zeroRow "A支局" "张三")
      (by decide) (by decide) (by decide) (by decide) (by decide) (by decide)).2
      (Or.inl rfl)⟩

theorem c9_extract_count_witness :
    (∀ p ≤ ("处理了".data.filter (fun c => c ≠ ' ')).length,
        matchNumHuAt ("处理了".data.filter (fun c => c ≠ ' ')) p = none) ∧
      (extract_number "三户接入号" = 3 ∧ extract_number "拾户" = 10 ∧
        extract_number "处理了" = 1) :=
  ⟨by decide, c9_extract_count "处理了" (by decide)⟩

end ReportGen
